import Mathlib

/-!
Verification development for a JavaScript spatial-hash library
(SpatialHash / PointHash / SegmentHash over a uniform grid).

The JavaScript source is shallowly embedded: JS numbers are modelled as
exact rationals (IEEE-754 rounding is out of scope), JS variadic flat cell
arrays become lists over a sum type of numbers and opaque values, and the
JS object used as the cell mapping becomes an association list with
first-match lookup.  The bit-or truncation (x / sz) | 0 used by the source
for cell coordinates is modelled exactly as truncation toward zero
(32-bit wraparound is out of scope).
-/

/-- A JS value stored in a cell array: either a number (exact rational) or
an opaque associated value. -/
inductive JSVal (α : Type) where
  | num (q : ℚ)
  | val (a : α)
deriving DecidableEq, Repr

/-- The spatial hash state: number of array elements per shape, the grid
cell size, and the cell mapping.  The JS object map is modelled as an
association list from integer cell coordinates to flat record arrays
(JS string keys of the form "x,y" are in bijection with the pairs). -/
structure SpatialHash (α : Type) where
  numElements : ℕ
  cellSize : ℚ
  map : List ((ℤ × ℤ) × List (JSVal α))
deriving DecidableEq

/-- First-match lookup in the association list (JS property read). -/
def mapFind {α : Type} : List ((ℤ × ℤ) × List (JSVal α)) → ℤ × ℤ → Option (List (JSVal α))
  | [], _ => none
  | e :: rest, k => if e.1 = k then some e.2 else mapFind rest k

/-- Write a key (JS property assignment): replace the first entry with the
key, keeping its position, or append a fresh entry. -/
def mapSet {α : Type} : List ((ℤ × ℤ) × List (JSVal α)) → ℤ × ℤ → List (JSVal α) →
    List ((ℤ × ℤ) × List (JSVal α))
  | [], k, arr => [(k, arr)]
  | e :: rest, k, arr => if e.1 = k then (k, arr) :: rest else e :: mapSet rest k arr

/-- Delete a key (JS delete operator); removes the first entry with the key. -/
def mapDelete {α : Type} : List ((ℤ × ℤ) × List (JSVal α)) → ℤ × ℤ →
    List ((ℤ × ℤ) × List (JSVal α))
  | [], _ => []
  | e :: rest, k => if e.1 = k then rest else e :: mapDelete rest k

/-- JS (q | 0): truncation toward zero. -/
def jsTrunc (q : ℚ) : ℤ := if q < 0 then -(⌊-q⌋) else ⌊q⌋

/-- JS Math.sign. -/
def jsSign (q : ℚ) : ℤ := if q < 0 then -1 else if 0 < q then 1 else 0

/-- Does args match the array arr starting at its head?  Mirrors the inner
loop of findSubArray: every args element must exist and be strictly equal;
a read past the end of arr (JS undefined) is a mismatch. -/
def matchesAt {α : Type} [DecidableEq α] : List (JSVal α) → List (JSVal α) → Bool
  | _, [] => true
  | [], _ :: _ => false
  | a :: arr, b :: args => a == b && matchesAt arr args

/-- The scan loop of findSubArray, with explicit fuel (the JS loop runs
i = 0, stride, 2*stride, ... while i < arr.length; for the strides 3 and 5
used by the library the fuel arr.length + 1 is enough). -/
def findSubArrayGo {α : Type} [DecidableEq α] (arr : List (JSVal α)) (stride : ℕ)
    (args : List (JSVal α)) : ℕ → ℕ → ℤ
  | 0, _ => -1
  | fuel + 1, i =>
    if i < arr.length then
      if matchesAt (arr.drop i) args then (i : ℤ)
      else findSubArrayGo arr stride args fuel (i + stride)
    else -1

/-- Find the given sequence of values in the given array, scanning in
stride-sized steps; returns the starting index or -1. -/
def findSubArray {α : Type} [DecidableEq α] (arr : List (JSVal α)) (stride : ℕ)
    (args : List (JSVal α)) : ℤ :=
  findSubArrayGo arr stride args (arr.length + 1) 0

/-- addAt: append the data to the given cell, creating the cell array if
absent. -/
def addAt {α : Type} (h : SpatialHash α) (cellX cellY : ℤ) (args : List (JSVal α)) :
    SpatialHash α :=
  let arr := (mapFind h.map (cellX, cellY)).getD []
  { h with map := mapSet h.map (cellX, cellY) (arr ++ args) }

/-- findIndex: the index in the cell array where the given values start, or
-1 when the cell is absent or there is no match. -/
def findIndex {α : Type} [DecidableEq α] (h : SpatialHash α) (cellX cellY : ℤ)
    (args : List (JSVal α)) : ℤ :=
  match mapFind h.map (cellX, cellY) with
  | none => -1
  | some arr => findSubArray arr h.numElements args

/-- findValues: the full record (numElements fields) whose leading fields
equal args, or none. -/
def findValues {α : Type} [DecidableEq α] (h : SpatialHash α) (cellX cellY : ℤ)
    (args : List (JSVal α)) : Option (List (JSVal α)) :=
  match mapFind h.map (cellX, cellY) with
  | none => none
  | some arr =>
    let idx := findSubArray arr h.numElements args
    if idx = -1 then none
    else some ((arr.drop idx.toNat).take h.numElements)

/-- The start offset JS Array.prototype.splice computes from a possibly
negative or out-of-range index. -/
def spliceStart (len : ℕ) (idx : ℤ) : ℕ :=
  if idx < 0 then ((len : ℤ) + idx).toNat else min idx.toNat len

/-- removeAt: splice numElements elements out of the cell array at idx and
return the removed slice; when the array becomes empty the key is deleted. -/
def removeAt {α : Type} (h : SpatialHash α) (cellX cellY : ℤ) (idx : ℤ) :
    List (JSVal α) × SpatialHash α :=
  match mapFind h.map (cellX, cellY) with
  | none => ([], h)
  | some arr =>
    let start := spliceStart arr.length idx
    let ret := (arr.drop start).take h.numElements
    let arr' := arr.take start ++ arr.drop (start + h.numElements)
    if arr'.isEmpty then (ret, { h with map := mapDelete h.map (cellX, cellY) })
    else (ret, { h with map := mapSet h.map (cellX, cellY) arr' })

/-- cellsUnderExtent: the row-major list of grid cells covered by an
axis-aligned box. -/
def cellsUnderExtent {α : Type} (h : SpatialHash α) (x y width height : ℚ) :
    List (ℤ × ℤ) :=
  let sz := h.cellSize
  let startX := jsTrunc (x / sz)
  let startY := jsTrunc (y / sz)
  let endX := jsTrunc ((x + width) / sz) + 1
  let endY := jsTrunc ((y + height) / sz) + 1
  (List.range (endY - startY).toNat).bind fun (j : ℕ) =>
    (List.range (endX - startX).toNat).map fun (i : ℕ) =>
      (startX + (i : ℤ), startY + (j : ℤ))

/-- Squared distance between two points. -/
def sqdist (ax ay bx by' : ℚ) : ℚ :=
  let dx := ax - bx
  let dy := ay - by'
  dx * dx + dy * dy

/-- Squared distance between a point and the nearest point to it on a
segment.  In the JS source the zero-length case sets param to -1; rational
division by zero would give 0, so the guard is kept explicitly. -/
def segPointDistSq (x1 y1 x2 y2 x y : ℚ) : ℚ :=
  let a := x - x1
  let b := y - y1
  let c := x2 - x1
  let d := y2 - y1
  let dot := a * c + b * d
  let lenSq := c * c + d * d
  let param : ℚ := if lenSq = 0 then -1 else dot / lenSq
  let xx := if param < 0 then x1 else if param > 1 then x2 else x1 + param * c
  let yy := if param < 0 then y1 else if param > 1 then y2 else y1 + param * d
  let dx := x - xx
  let dy := y - yy
  dx * dx + dy * dy

/-- Whether two line segments intersect (general crossing, endpoint
touching, or collinear overlap).  Faithful to the JS source; in the
doubly-degenerate collinear case (both segments points) JS computes with
NaN and returns true, and the rational convention division-by-zero = 0
returns true there as well. -/
def intersectSegments (p1x p1y p2x p2y p3x p3y p4x p4y : ℚ) : Bool :=
  let rx := p2x - p1x
  let ry := p2y - p1y
  let sx := p4x - p3x
  let sy := p4y - p3y
  let mx := p3x - p1x
  let my := p3y - p1y
  let n := mx * ry - rx * my
  let d := rx * sy - sx * ry
  if d = 0 then
    if n = 0 then
      let rr := rx * rx + ry * ry
      let t0 := (mx * rx + my * ry) / rr
      let t1 := t0 + (sx * rx + sy * ry) / rr
      decide (¬((t0 < 0 ∧ t1 < 0) ∨ (t0 > 1 ∧ t1 > 1)))
    else false
  else
    let u := n / d
    let t := (mx * sy - sx * my) / d
    decide (¬(t < 0 ∨ t > 1 ∨ u < 0 ∨ u > 1))

/-- The mutable state of the cellsUnderSegment generator: the traversal
point, the current cell, the iteration counter, the seen-set (as a list)
and the cells yielded so far, in order. -/
structure SegState where
  x : ℚ
  y : ℚ
  cellX : ℤ
  cellY : ℤ
  iter : ℕ
  seen : List (ℤ × ℤ)
  out : List (ℤ × ℤ)
deriving DecidableEq

/-- canEmit plus the conditional yield: add the cell key to the seen set
and append it to the output only when it was fresh. -/
def segEmit (s : SegState) (c : ℤ × ℤ) : SegState :=
  if c ∈ s.seen then s else { s with seen := c :: s.seen, out := s.out ++ [c] }

/-- One conditional canEmit/yield block. -/
def segEmitIf (b : Bool) (s : SegState) (c : ℤ × ℤ) : SegState :=
  if b then segEmit s c else s

/-- The boundary / diagonal neighbor emission block shared verbatim by the
loop body and the final endpoint pass of cellsUnderSegment.  The nested JS
conditionals are flattened into one guarded emission per neighbor, keeping
the source's conditions and emission order. -/
def emitNbrs (eps lft rgt top bot : ℚ) (cellX cellY : ℤ) (s : SegState) : SegState :=
  let s1 := segEmitIf (decide (lft ≤ eps)) s (cellX - 1, cellY)
  let s2 := segEmitIf (decide (lft ≤ eps) && decide (top ≤ eps)) s1 (cellX - 1, cellY - 1)
  let s3 := segEmitIf (decide (lft ≤ eps) && decide (bot ≤ eps)) s2 (cellX - 1, cellY + 1)
  let s4 := segEmitIf (decide (rgt ≤ eps)) s3 (cellX + 1, cellY)
  let s5 := segEmitIf (decide (rgt ≤ eps) && decide (top ≤ eps)) s4 (cellX + 1, cellY - 1)
  let s6 := segEmitIf (decide (rgt ≤ eps) && decide (bot ≤ eps)) s5 (cellX + 1, cellY + 1)
  let s7 := segEmitIf (decide (top ≤ eps)) s6 (cellX, cellY - 1)
  segEmitIf (decide (bot ≤ eps)) s7 (cellX, cellY + 1)

/-- The float comparison hor < ver deciding whether to advance in x,
including the infinities produced by the JS slope ratios dy/dx and dx/dy
when the segment is axis aligned: with dx = 0 the comparison is never true
(hor is infinite or NaN), and with dy = 0 it is true exactly when distY is
nonzero (ver is then infinite; when distY = 0, ver is NaN and any
comparison with NaN is false).  In the remaining cases all quantities are
finite and the rational comparison is exact. -/
def jsMoveX (dx dy distY hor ver : ℚ) : Bool :=
  if dx = 0 then false
  else if dy = 0 then decide (distY ≠ 0)
  else decide (hor < ver)

/-- One iteration of the main traversal loop of cellsUnderSegment. -/
def segStep (sz eps dx dy : ℚ) (dirX dirY : ℤ) (dydx dxdy : ℚ) (s : SegState) :
    SegState :=
  let lft := s.x - s.cellX * sz
  let rgt := (s.cellX + 1) * sz - s.x
  let distX := if dirX < 0 then lft else rgt
  let top := s.y - s.cellY * sz
  let bot := (s.cellY + 1) * sz - s.y
  let distY := if dirY < 0 then top else bot
  let horX := distX
  let horY := distX * dydx
  let verX := distY * dxdy
  let verY := distY
  let hor := horX * horX + horY * horY
  let ver := verX * verX + verY * verY
  let s1 := emitNbrs eps lft rgt top bot s.cellX s.cellY s
  let s2 := segEmit s1 (s.cellX, s.cellY)
  if jsMoveX dx dy distY hor ver then
    { s2 with
      x := s.x + horX * (dirX : ℚ)
      y := s.y + horY * (dirY : ℚ)
      cellX := s.cellX + dirX
      iter := s.iter + 1 }
  else
    { s2 with
      x := s.x + verX * (dirX : ℚ)
      y := s.y + verY * (dirY : ℚ)
      cellY := s.cellY + dirY
      iter := s.iter + 1 }

/-- The main traversal loop.  The JS condition is
(cellX != endCellX or cellY != endCellY) and iter <= steps; the fuel below
starts at steps + 1 and decreases as iter increases, so fuel > 0 is exactly
iter <= steps. -/
def segLoopGo (sz eps dx dy : ℚ) (dirX dirY : ℤ) (dydx dxdy : ℚ) (endX endY : ℤ) :
    ℕ → SegState → SegState
  | 0, s => s
  | fuel + 1, s =>
    if s.cellX = endX ∧ s.cellY = endY then s
    else segLoopGo sz eps dx dy dirX dirY dydx dxdy endX endY fuel
      (segStep sz eps dx dy dirX dirY dydx dxdy s)

/-- cellsUnderSegment, returning the full final generator state.  The slope
ratios are JS Math.abs(dy/dx) and Math.abs(dx/dy); when the denominator is
zero JS produces Infinity (or NaN for 0/0), which is routed through jsMoveX,
and the rational value 0 recorded here is never multiplied into a traversal
update on a reachable path (with dx = 0 no x-advance is ever taken, and
with dy = 0 a y-advance would require distY = 0, impossible for a positive
cell size). -/
def cellsUnderSegmentAux {α : Type} (h : SpatialHash α) (x1 y1 x2 y2 eps : ℚ) :
    SegState :=
  let sz := h.cellSize
  let dx := x2 - x1
  let dy := y2 - y1
  let dirX := jsSign dx
  let dirY := jsSign dy
  let dydx := if dx = 0 then 0 else |dy / dx|
  let dxdy := if dy = 0 then 0 else |dx / dy|
  let startCellX := jsTrunc (x1 / sz)
  let startCellY := jsTrunc (y1 / sz)
  let endCellX := jsTrunc (x2 / sz)
  let endCellY := jsTrunc (y2 / sz)
  let steps := (endCellX - startCellX).natAbs + (endCellY - startCellY).natAbs
  let s0 : SegState := ⟨x1, y1, startCellX, startCellY, 0, [], []⟩
  let s1 := segLoopGo sz eps dx dy dirX dirY dydx dxdy endCellX endCellY (steps + 1) s0
  let lft := x2 - endCellX * sz
  let rgt := (endCellX + 1) * sz - x2
  let top := y2 - endCellY * sz
  let bot := (endCellY + 1) * sz - y2
  let s2 := emitNbrs eps lft rgt top bot endCellX endCellY s1
  segEmit s2 (endCellX, endCellY)

/-- cellsUnderSegment: the ordered list of cells yielded by the generator.
The JS default for eps is cellSize / 2; callers of this model pass eps
explicitly. -/
def cellsUnderSegment {α : Type} (h : SpatialHash α) (x1 y1 x2 y2 eps : ℚ) :
    List (ℤ × ℤ) :=
  (cellsUnderSegmentAux h x1 y1 x2 y2 eps).out

/-- Read a numeric array slot; a JS read of a non-number (or past the end)
yields undefined/NaN and the surrounding arithmetic propagates it, which no
well-formed state reaches.  The placeholder value 0 is only returned on
those unreachable reads. -/
def qAt {α : Type} (l : List (JSVal α)) (i : ℕ) : ℚ :=
  match l.get? i with
  | some (JSVal.num q) => q
  | _ => 0

/-- Read an arbitrary array slot, with a placeholder for a JS undefined
read past the end. -/
def vAt {α : Type} (l : List (JSVal α)) (i : ℕ) : JSVal α :=
  (l.get? i).getD (JSVal.num 0)

/-- The stride-sized windows read by the JS loops
for (i = 0; i < arr.length; i += stride). -/
def chunksGo {α : Type} (stride : ℕ) : ℕ → List (JSVal α) → List (List (JSVal α))
  | 0, _ => []
  | _, [] => []
  | fuel + 1, arr => arr.take stride :: chunksGo stride fuel (arr.drop stride)

/-- All stride-sized windows of a cell array. -/
def chunks {α : Type} (stride : ℕ) (arr : List (JSVal α)) : List (List (JSVal α)) :=
  chunksGo stride arr.length arr

/-- addPoint: insert the triple x, y, value into the single cell of the
truncated coordinates. -/
def addPoint {α : Type} (h : SpatialHash α) (x y : ℚ) (v : α) : SpatialHash α :=
  addAt h (jsTrunc (x / h.cellSize)) (jsTrunc (y / h.cellSize))
    [JSVal.num x, JSVal.num y, JSVal.val v]

/-- findPoint: exact lookup of a point by strict coordinate equality. -/
def findPoint {α : Type} [DecidableEq α] (h : SpatialHash α) (x y : ℚ) :
    Option (List (JSVal α)) :=
  findValues h (jsTrunc (x / h.cellSize)) (jsTrunc (y / h.cellSize))
    [JSVal.num x, JSVal.num y]

/-- removePoint: remove the first exact coordinate match, if any. -/
def removePoint {α : Type} [DecidableEq α] (h : SpatialHash α) (x y : ℚ) :
    Option (List (JSVal α)) × SpatialHash α :=
  let cx := jsTrunc (x / h.cellSize)
  let cy := jsTrunc (y / h.cellSize)
  let idx := findIndex h cx cy [JSVal.num x, JSVal.num y]
  if idx = -1 then (none, h)
  else
    let r := removeAt h cx cy idx
    (some r.1, r.2)

/-- nearbyPoints: every stored record whose squared distance to the center
is at most r * r, scanned over the cells of the extent of the
2r-by-2r box around the center, with its squared distance. -/
def nearbyPoints {α : Type} (h : SpatialHash α) (cx cy r : ℚ) :
    List (ℚ × ℚ × JSVal α × ℚ) :=
  let r2 := r * r
  (cellsUnderExtent h (cx - r) (cy - r) (r + r) (r + r)).bind fun c =>
    match mapFind h.map c with
    | none => []
    | some arr =>
      (chunks 3 arr).filterMap fun ch =>
        let px := qAt ch 0
        let py := qAt ch 1
        let pv := vAt ch 2
        let d2 := sqdist cx cy px py
        if d2 ≤ r2 then some (px, py, pv, d2) else none

/-- pointsNearSegment: every stored record within eps of the segment,
scanned over cellsUnderSegment, with its squared point-segment distance. -/
def pointsNearSegment {α : Type} (h : SpatialHash α) (x1 y1 x2 y2 eps : ℚ) :
    List (ℚ × ℚ × JSVal α × ℚ) :=
  let eps2 := eps * eps
  (cellsUnderSegment h x1 y1 x2 y2 eps).bind fun c =>
    match mapFind h.map c with
    | none => []
    | some arr =>
      (chunks 3 arr).filterMap fun ch =>
        let px := qAt ch 0
        let py := qAt ch 1
        let pv := vAt ch 2
        let d2 := segPointDistSq x1 y1 x2 y2 px py
        if d2 ≤ eps2 then some (px, py, pv, d2) else none

/-- The flat five-element record a segment is stored as. -/
def segRecord {α : Type} (x1 y1 x2 y2 : ℚ) (v : α) : List (JSVal α) :=
  [JSVal.num x1, JSVal.num y1, JSVal.num x2, JSVal.num y2, JSVal.val v]

/-- addSegment: append a copy of the record to every covering cell
(cellsUnderSegment with the default eps = cellSize / 2).  The generator
reads only the cell size, so interleaving its consumption with the addAt
mutations is equivalent to folding over the finished cell list. -/
def addSegment {α : Type} (h : SpatialHash α) (x1 y1 x2 y2 : ℚ) (v : α) :
    SpatialHash α :=
  (cellsUnderSegment h x1 y1 x2 y2 (h.cellSize / 2)).foldl
    (fun hh c => addAt hh c.1 c.2 (segRecord x1 y1 x2 y2 v)) h

/-- findSegment: exact lookup in the single cell containing the segment's
first endpoint. -/
def findSegment {α : Type} [DecidableEq α] (h : SpatialHash α) (x1 y1 x2 y2 : ℚ) :
    Option (List (JSVal α)) :=
  findValues h (jsTrunc (x1 / h.cellSize)) (jsTrunc (y1 / h.cellSize))
    [JSVal.num x1, JSVal.num y1, JSVal.num x2, JSVal.num y2]

/-- The cell-by-cell loop of removeSegment: find and remove one exact match
in each covering cell, giving up (without rollback) at the first cell with
no match; val carries the last removed record's fifth field (JS reads
ret[4], which is undefined when the splice returned fewer than five
elements; the final placeholder when val was never set models the JS
undefined slot and is unreachable from well-formed states). -/
def removeSegmentGo {α : Type} [DecidableEq α] (x1 y1 x2 y2 : ℚ) :
    List (ℤ × ℤ) → SpatialHash α → Option (JSVal α) →
    Option (List (JSVal α)) × SpatialHash α
  | [], h, val =>
    (some [JSVal.num x1, JSVal.num y1, JSVal.num x2, JSVal.num y2,
      val.getD (JSVal.num 0)], h)
  | c :: rest, h, _val =>
    let idx := findIndex h c.1 c.2
      [JSVal.num x1, JSVal.num y1, JSVal.num x2, JSVal.num y2]
    if idx = -1 then (none, h)
    else
      let r := removeAt h c.1 c.2 idx
      removeSegmentGo x1 y1 x2 y2 rest r.2 (r.1.get? 4)

/-- removeSegment over the covering cells with the default eps. -/
def removeSegment {α : Type} [DecidableEq α] (h : SpatialHash α) (x1 y1 x2 y2 : ℚ) :
    Option (List (JSVal α)) × SpatialHash α :=
  removeSegmentGo x1 y1 x2 y2 (cellsUnderSegment h x1 y1 x2 y2 (h.cellSize / 2)) h none

/-- The record scan of findIntersects within one cell array, threading the
adjacent-duplicate suppression state prev across records. -/
def fiRecords {α : Type} (x1 y1 x2 y2 : ℚ) :
    List (List (JSVal α)) → Option (ℚ × ℚ × ℚ × ℚ) →
    List (ℚ × ℚ × ℚ × ℚ × JSVal α) × Option (ℚ × ℚ × ℚ × ℚ)
  | [], prev => ([], prev)
  | ch :: rest, prev =>
    let sx1 := qAt ch 0
    let sy1 := qAt ch 1
    let sx2 := qAt ch 2
    let sy2 := qAt ch 3
    let sv := vAt ch 4
    if prev = some (sx1, sy1, sx2, sy2) then fiRecords x1 y1 x2 y2 rest prev
    else if intersectSegments x1 y1 x2 y2 sx1 sy1 sx2 sy2 then
      let r := fiRecords x1 y1 x2 y2 rest (some (sx1, sy1, sx2, sy2))
      ((sx1, sy1, sx2, sy2, sv) :: r.1, r.2)
    else fiRecords x1 y1 x2 y2 rest prev

/-- The cell scan of findIntersects, threading prev across cells. -/
def fiCells {α : Type} (m : List ((ℤ × ℤ) × List (JSVal α))) (x1 y1 x2 y2 : ℚ) :
    List (ℤ × ℤ) → Option (ℚ × ℚ × ℚ × ℚ) → List (ℚ × ℚ × ℚ × ℚ × JSVal α)
  | [], _ => []
  | c :: rest, prev =>
    match mapFind m c with
    | none => fiCells m x1 y1 x2 y2 rest prev
    | some arr =>
      let r := fiRecords x1 y1 x2 y2 (chunks 5 arr) prev
      r.1 ++ fiCells m x1 y1 x2 y2 rest r.2

/-- findIntersects: all stored segments that intersect the query segment,
scanning the cells of cellsUnderSegment with the given eps (JS default 1),
with only the immediately-preceding yield suppressed as a duplicate. -/
def findIntersects {α : Type} [DecidableEq α] (h : SpatialHash α)
    (x1 y1 x2 y2 eps : ℚ) : List (ℚ × ℚ × ℚ × ℚ × JSVal α) :=
  fiCells h.map x1 y1 x2 y2 (cellsUnderSegment h x1 y1 x2 y2 eps) none

/-!
State-threading translations of the query methods.  None of the query
bodies in the source contains an assignment to this.map, a delete, or a
mutation (push/splice) of a stored cell array — they only read — so the
state component of each translation is the receiver unchanged.  The
wrappers record each query's result together with the state it leaves
behind, which the frame theorem below inspects.
-/

/-- findIndex with its resulting state. -/
def findIndexS {α : Type} [DecidableEq α] (h : SpatialHash α) (cellX cellY : ℤ)
    (args : List (JSVal α)) : ℤ × SpatialHash α :=
  (findIndex h cellX cellY args, h)

/-- findValues with its resulting state. -/
def findValuesS {α : Type} [DecidableEq α] (h : SpatialHash α) (cellX cellY : ℤ)
    (args : List (JSVal α)) : Option (List (JSVal α)) × SpatialHash α :=
  (findValues h cellX cellY args, h)

/-- findPoint with its resulting state. -/
def findPointS {α : Type} [DecidableEq α] (h : SpatialHash α) (x y : ℚ) :
    Option (List (JSVal α)) × SpatialHash α :=
  (findPoint h x y, h)

/-- findSegment with its resulting state. -/
def findSegmentS {α : Type} [DecidableEq α] (h : SpatialHash α) (x1 y1 x2 y2 : ℚ) :
    Option (List (JSVal α)) × SpatialHash α :=
  (findSegment h x1 y1 x2 y2, h)

/-- nearbyPoints with the state left after full consumption of the lazy
sequence. -/
def nearbyPointsS {α : Type} (h : SpatialHash α) (cx cy r : ℚ) :
    List (ℚ × ℚ × JSVal α × ℚ) × SpatialHash α :=
  (nearbyPoints h cx cy r, h)

/-- pointsNearSegment with the state left after full consumption. -/
def pointsNearSegmentS {α : Type} (h : SpatialHash α) (x1 y1 x2 y2 eps : ℚ) :
    List (ℚ × ℚ × JSVal α × ℚ) × SpatialHash α :=
  (pointsNearSegment h x1 y1 x2 y2 eps, h)

/-- findIntersects with the state left after full consumption. -/
def findIntersectsS {α : Type} [DecidableEq α] (h : SpatialHash α)
    (x1 y1 x2 y2 eps : ℚ) : List (ℚ × ℚ × ℚ × ℚ × JSVal α) × SpatialHash α :=
  (findIntersects h x1 y1 x2 y2 eps, h)

/-- cellsUnderExtent with the state left after full consumption. -/
def cellsUnderExtentS {α : Type} (h : SpatialHash α) (x y width height : ℚ) :
    List (ℤ × ℤ) × SpatialHash α :=
  (cellsUnderExtent h x y width height, h)

/-- cellsUnderSegment with the state left after full consumption. -/
def cellsUnderSegmentS {α : Type} (h : SpatialHash α) (x1 y1 x2 y2 eps : ℚ) :
    List (ℤ × ℤ) × SpatialHash α :=
  (cellsUnderSegment h x1 y1 x2 y2 eps, h)


/-!
Invariants of the cellsUnderSegment generator state.
-/

/-- The generator invariant: the yielded list has no duplicates and the
seen set holds exactly the yielded cells (every canEmit call that returns
true is paired with a yield). -/
def GoodState (s : SegState) : Prop :=
  s.out.Nodup ∧ ∀ c : ℤ × ℤ, c ∈ s.out ↔ c ∈ s.seen

/-!
Concrete fixtures and spec-side predicates used by the claim theorems.
-/

/-- Containment of a point in the closed unit cell square of a cell. -/
def cellSquareContains (sz : ℚ) (c : ℤ × ℤ) (p : ℚ × ℚ) : Prop :=
  (c.1 : ℚ) * sz ≤ p.1 ∧ p.1 ≤ ((c.1 : ℚ) + 1) * sz ∧
  (c.2 : ℚ) * sz ≤ p.2 ∧ p.2 ≤ ((c.2 : ℚ) + 1) * sz

instance (sz : ℚ) (c : ℤ × ℤ) (p : ℚ × ℚ) : Decidable (cellSquareContains sz c p) := by
  unfold cellSquareContains
  infer_instance

/-- An empty segment hash (stride 5) with cell size 10. -/
def segHash10 : SpatialHash ℕ := ⟨5, 10, []⟩

/-- An empty point hash (stride 3) with cell size 10. -/
def ptHash10 : SpatialHash ℕ := ⟨3, 10, []⟩

/-- Two stored segments with identical endpoints (2,2)-(3,3) and distinct
values 7 and 8. -/
def dupSegHash : SpatialHash ℕ := addSegment (addSegment segHash10 2 2 3 3 7) 2 2 3 3 8

/-- The list of keys of the mapping. -/
def mapKeys {α : Type} (m : List ((ℤ × ℤ) × List (JSVal α))) : List (ℤ × ℤ) :=
  m.map Prod.fst

/-- JS objects never hold the same property twice: the mapping's keys are
distinct.  Every state reachable through the API satisfies this. -/
def NodupKeys {α : Type} (m : List ((ℤ × ℤ) × List (JSVal α))) : Prop :=
  (mapKeys m).Nodup

instance {α : Type} (m : List ((ℤ × ℤ) × List (JSVal α))) :
    Decidable (NodupKeys m) := by
  unfold NodupKeys
  exact List.nodupDecidable _

/-!
The cell-mapping invariant of C8 and its preservation lemmas.
-/

/-- The mapping invariant: every present cell has a non-empty record list
whose length is a multiple of the stride. -/
def StrideInv {α : Type} (s : ℕ) (m : List ((ℤ × ℤ) × List (JSVal α))) : Prop :=
  ∀ e ∈ m, e.2 ≠ [] ∧ s ∣ e.2.length

instance {α : Type} [DecidableEq α] (s : ℕ) (m : List ((ℤ × ℤ) × List (JSVal α))) :
    Decidable (StrideInv s m) := by
  unfold StrideInv
  infer_instance

/-- The spec-side brute force for the range query: every stored point record
whose squared distance to the centre is at most r * r, taken over the whole
map in storage order. -/
def nearbyBruteForce {α : Type} (h : SpatialHash α) (cx cy r : ℚ) :
    List (ℚ × ℚ × JSVal α × ℚ) :=
  h.map.bind fun e =>
    (chunks 3 e.2).filterMap fun ch =>
      let px := qAt ch 0
      let py := qAt ch 1
      let pv := vAt ch 2
      let d2 := sqdist cx cy px py
      if d2 ≤ r * r then some (px, py, pv, d2) else none

theorem goodState_segEmit {s : SegState} (hs : GoodState s) (c : ℤ × ℤ) :
    GoodState (segEmit s c) := by
  unfold segEmit
  by_cases hmem : c ∈ s.seen
  · simpa [hmem] using hs
  · simp only [hmem, if_false]
    refine ⟨?_, ?_⟩
    · refine (List.nodup_append).mpr ⟨hs.1, List.nodup_singleton c, ?_⟩
      intro a ha hc
      rcases List.mem_singleton.mp hc with rfl
      exact hmem ((hs.2 a).mp ha)
    · intro d
      simp only [List.mem_append, List.mem_cons, List.not_mem_nil, or_false]
      have hiff := hs.2 d
      constructor
      · rintro (hd | rfl)
        · exact Or.inr (hiff.mp hd)
        · exact Or.inl rfl
      · rintro (rfl | hd)
        · exact Or.inr rfl
        · exact Or.inl (hiff.mpr hd)

theorem segEmit_iter (s : SegState) (c : ℤ × ℤ) : (segEmit s c).iter = s.iter := by
  unfold segEmit; split <;> rfl

theorem segEmit_x (s : SegState) (c : ℤ × ℤ) : (segEmit s c).x = s.x := by
  unfold segEmit; split <;> rfl

theorem segEmit_y (s : SegState) (c : ℤ × ℤ) : (segEmit s c).y = s.y := by
  unfold segEmit; split <;> rfl

theorem segEmit_cellX (s : SegState) (c : ℤ × ℤ) : (segEmit s c).cellX = s.cellX := by
  unfold segEmit; split <;> rfl

theorem segEmit_cellY (s : SegState) (c : ℤ × ℤ) : (segEmit s c).cellY = s.cellY := by
  unfold segEmit; split <;> rfl

theorem mem_out_segEmit {s : SegState} {d : ℤ × ℤ} (hd : d ∈ s.out) (c : ℤ × ℤ) :
    d ∈ (segEmit s c).out := by
  unfold segEmit; split
  · exact hd
  · simp only [List.mem_append]; exact Or.inl hd

theorem self_mem_out_segEmit {s : SegState} (hs : GoodState s) (c : ℤ × ℤ) :
    c ∈ (segEmit s c).out := by
  unfold segEmit; split
  · next hmem => exact (hs.2 c).mpr hmem
  · simp

theorem goodState_segEmitIf {s : SegState} (hs : GoodState s) (b : Bool) (c : ℤ × ℤ) :
    GoodState (segEmitIf b s c) := by
  unfold segEmitIf
  cases b
  · exact hs
  · exact goodState_segEmit hs c

theorem segEmitIf_iter (b : Bool) (s : SegState) (c : ℤ × ℤ) :
    (segEmitIf b s c).iter = s.iter := by
  unfold segEmitIf; cases b
  · rfl
  · exact segEmit_iter s c

theorem segEmitIf_x (b : Bool) (s : SegState) (c : ℤ × ℤ) :
    (segEmitIf b s c).x = s.x := by
  unfold segEmitIf; cases b
  · rfl
  · exact segEmit_x s c

theorem segEmitIf_y (b : Bool) (s : SegState) (c : ℤ × ℤ) :
    (segEmitIf b s c).y = s.y := by
  unfold segEmitIf; cases b
  · rfl
  · exact segEmit_y s c

theorem segEmitIf_cellX (b : Bool) (s : SegState) (c : ℤ × ℤ) :
    (segEmitIf b s c).cellX = s.cellX := by
  unfold segEmitIf; cases b
  · rfl
  · exact segEmit_cellX s c

theorem segEmitIf_cellY (b : Bool) (s : SegState) (c : ℤ × ℤ) :
    (segEmitIf b s c).cellY = s.cellY := by
  unfold segEmitIf; cases b
  · rfl
  · exact segEmit_cellY s c

theorem mem_out_segEmitIf {s : SegState} {d : ℤ × ℤ} (hd : d ∈ s.out) (b : Bool)
    (c : ℤ × ℤ) : d ∈ (segEmitIf b s c).out := by
  unfold segEmitIf; cases b
  · exact hd
  · exact mem_out_segEmit hd c

theorem goodState_emitNbrs {s : SegState} (hs : GoodState s)
    (eps lft rgt top bot : ℚ) (cellX cellY : ℤ) :
    GoodState (emitNbrs eps lft rgt top bot cellX cellY s) := by
  unfold emitNbrs
  exact goodState_segEmitIf (goodState_segEmitIf (goodState_segEmitIf (goodState_segEmitIf
    (goodState_segEmitIf (goodState_segEmitIf (goodState_segEmitIf (goodState_segEmitIf
      hs _ _) _ _) _ _) _ _) _ _) _ _) _ _) _ _

theorem emitNbrs_iter (s : SegState) (eps lft rgt top bot : ℚ) (cellX cellY : ℤ) :
    (emitNbrs eps lft rgt top bot cellX cellY s).iter = s.iter := by
  unfold emitNbrs
  simp only [segEmitIf_iter]

theorem emitNbrs_x (s : SegState) (eps lft rgt top bot : ℚ) (cellX cellY : ℤ) :
    (emitNbrs eps lft rgt top bot cellX cellY s).x = s.x := by
  unfold emitNbrs
  simp only [segEmitIf_x]

theorem emitNbrs_y (s : SegState) (eps lft rgt top bot : ℚ) (cellX cellY : ℤ) :
    (emitNbrs eps lft rgt top bot cellX cellY s).y = s.y := by
  unfold emitNbrs
  simp only [segEmitIf_y]

theorem emitNbrs_cellX (s : SegState) (eps lft rgt top bot : ℚ) (cellX cellY : ℤ) :
    (emitNbrs eps lft rgt top bot cellX cellY s).cellX = s.cellX := by
  unfold emitNbrs
  simp only [segEmitIf_cellX]

theorem emitNbrs_cellY (s : SegState) (eps lft rgt top bot : ℚ) (cellX cellY : ℤ) :
    (emitNbrs eps lft rgt top bot cellX cellY s).cellY = s.cellY := by
  unfold emitNbrs
  simp only [segEmitIf_cellY]

theorem mem_out_emitNbrs {s : SegState} {d : ℤ × ℤ} (hd : d ∈ s.out)
    (eps lft rgt top bot : ℚ) (cellX cellY : ℤ) :
    d ∈ (emitNbrs eps lft rgt top bot cellX cellY s).out := by
  unfold emitNbrs
  exact mem_out_segEmitIf (mem_out_segEmitIf (mem_out_segEmitIf (mem_out_segEmitIf
    (mem_out_segEmitIf (mem_out_segEmitIf (mem_out_segEmitIf (mem_out_segEmitIf
      hd _ _) _ _) _ _) _ _) _ _) _ _) _ _) _ _

theorem goodState_ite (c : Prop) [Decidable c] {A B : SegState}
    (hA : GoodState A) (hB : GoodState B) : GoodState (if c then A else B) := by
  split <;> assumption

theorem mem_out_ite (c : Prop) [Decidable c] {A B : SegState} {d : ℤ × ℤ}
    (hA : d ∈ A.out) (hB : d ∈ B.out) : d ∈ (if c then A else B).out := by
  split <;> assumption

theorem iter_ite (c : Prop) [Decidable c] {A B : SegState} {v : ℕ}
    (hA : A.iter = v) (hB : B.iter = v) : (if c then A else B).iter = v := by
  split <;> assumption

theorem goodState_segStep {s : SegState} (hs : GoodState s)
    (sz eps dx dy : ℚ) (dirX dirY : ℤ) (dydx dxdy : ℚ) :
    GoodState (segStep sz eps dx dy dirX dirY dydx dxdy s) := by
  unfold segStep
  dsimp only
  have h1 := goodState_emitNbrs hs eps (s.x - s.cellX * sz) ((s.cellX + 1) * sz - s.x)
    (s.y - s.cellY * sz) ((s.cellY + 1) * sz - s.y) s.cellX s.cellY
  have h2 := goodState_segEmit h1 (s.cellX, s.cellY)
  exact goodState_ite _ ⟨h2.1, h2.2⟩ ⟨h2.1, h2.2⟩

theorem segStep_iter (s : SegState) (sz eps dx dy : ℚ) (dirX dirY : ℤ)
    (dydx dxdy : ℚ) :
    (segStep sz eps dx dy dirX dirY dydx dxdy s).iter = s.iter + 1 := by
  unfold segStep
  dsimp only
  exact iter_ite _ rfl rfl

theorem mem_out_segStep {s : SegState} {d : ℤ × ℤ} (hd : d ∈ s.out)
    (sz eps dx dy : ℚ) (dirX dirY : ℤ) (dydx dxdy : ℚ) :
    d ∈ (segStep sz eps dx dy dirX dirY dydx dxdy s).out := by
  unfold segStep
  dsimp only
  have h1 := mem_out_emitNbrs hd eps (s.x - s.cellX * sz) ((s.cellX + 1) * sz - s.x)
    (s.y - s.cellY * sz) ((s.cellY + 1) * sz - s.y) s.cellX s.cellY
  have h2 := mem_out_segEmit h1 (s.cellX, s.cellY)
  exact mem_out_ite _ h2 h2

theorem center_mem_out_segStep {s : SegState} (hs : GoodState s)
    (sz eps dx dy : ℚ) (dirX dirY : ℤ) (dydx dxdy : ℚ) :
    (s.cellX, s.cellY) ∈ (segStep sz eps dx dy dirX dirY dydx dxdy s).out := by
  unfold segStep
  dsimp only
  have h1 := goodState_emitNbrs hs eps (s.x - s.cellX * sz) ((s.cellX + 1) * sz - s.x)
    (s.y - s.cellY * sz) ((s.cellY + 1) * sz - s.y) s.cellX s.cellY
  have h2 := self_mem_out_segEmit h1 (s.cellX, s.cellY)
  exact mem_out_ite _ h2 h2

theorem goodState_segLoopGo {s : SegState} (hs : GoodState s)
    (sz eps dx dy : ℚ) (dirX dirY : ℤ) (dydx dxdy : ℚ) (endX endY : ℤ) (fuel : ℕ) :
    GoodState (segLoopGo sz eps dx dy dirX dirY dydx dxdy endX endY fuel s) := by
  induction fuel generalizing s with
  | zero => exact hs
  | succ n ih =>
    unfold segLoopGo
    split
    · exact hs
    · exact ih (goodState_segStep hs sz eps dx dy dirX dirY dydx dxdy)

theorem mem_out_segLoopGo {s : SegState} {d : ℤ × ℤ} (hd : d ∈ s.out)
    (sz eps dx dy : ℚ) (dirX dirY : ℤ) (dydx dxdy : ℚ) (endX endY : ℤ) (fuel : ℕ) :
    d ∈ (segLoopGo sz eps dx dy dirX dirY dydx dxdy endX endY fuel s).out := by
  induction fuel generalizing s with
  | zero => exact hd
  | succ n ih =>
    unfold segLoopGo
    split
    · exact hd
    · exact ih (mem_out_segStep hd sz eps dx dy dirX dirY dydx dxdy)

theorem segLoopGo_iter_le (s : SegState)
    (sz eps dx dy : ℚ) (dirX dirY : ℤ) (dydx dxdy : ℚ) (endX endY : ℤ) (fuel : ℕ) :
    (segLoopGo sz eps dx dy dirX dirY dydx dxdy endX endY fuel s).iter ≤ s.iter + fuel := by
  induction fuel generalizing s with
  | zero => exact Nat.le_refl _
  | succ n ih =>
    unfold segLoopGo
    split
    · exact Nat.le_add_right _ _
    · calc (segLoopGo sz eps dx dy dirX dirY dydx dxdy endX endY n
            (segStep sz eps dx dy dirX dirY dydx dxdy s)).iter
          ≤ (segStep sz eps dx dy dirX dirY dydx dxdy s).iter + n := ih _
        _ = s.iter + (n + 1) := by rw [segStep_iter]; omega

theorem startCenter_mem_out_segLoopGo {s : SegState} (hs : GoodState s)
    (sz eps dx dy : ℚ) (dirX dirY : ℤ) (dydx dxdy : ℚ) (endX endY : ℤ) (fuel : ℕ)
    (hne : ¬(s.cellX = endX ∧ s.cellY = endY)) :
    (s.cellX, s.cellY) ∈ (segLoopGo sz eps dx dy dirX dirY dydx dxdy endX endY
      (fuel + 1) s).out := by
  unfold segLoopGo
  rw [if_neg hne]
  exact mem_out_segLoopGo (center_mem_out_segStep hs sz eps dx dy dirX dirY dydx dxdy)
    sz eps dx dy dirX dirY dydx dxdy endX endY fuel

theorem goodState_init (x y : ℚ) (cx cy : ℤ) :
    GoodState ⟨x, y, cx, cy, 0, [], []⟩ := by
  constructor
  · exact List.nodup_nil
  · intro c
    constructor <;> (intro hc; exact absurd hc (List.not_mem_nil c))

theorem goodState_cellsUnderSegmentAux {α : Type} (h : SpatialHash α)
    (x1 y1 x2 y2 eps : ℚ) : GoodState (cellsUnderSegmentAux h x1 y1 x2 y2 eps) := by
  unfold cellsUnderSegmentAux
  dsimp only
  exact goodState_segEmit (goodState_emitNbrs (goodState_segLoopGo
    (goodState_init x1 y1 _ _) _ _ _ _ _ _ _ _ _ _ _) _ _ _ _ _ _ _) _

theorem endCell_mem_cellsUnderSegment {α : Type} (h : SpatialHash α)
    (x1 y1 x2 y2 eps : ℚ) :
    (jsTrunc (x2 / h.cellSize), jsTrunc (y2 / h.cellSize)) ∈
      cellsUnderSegment h x1 y1 x2 y2 eps := by
  unfold cellsUnderSegment cellsUnderSegmentAux
  dsimp only
  exact self_mem_out_segEmit (goodState_emitNbrs (goodState_segLoopGo
    (goodState_init x1 y1 _ _) _ _ _ _ _ _ _ _ _ _ _) _ _ _ _ _ _ _) _

theorem startCell_mem_cellsUnderSegment {α : Type} (h : SpatialHash α)
    (x1 y1 x2 y2 eps : ℚ) :
    (jsTrunc (x1 / h.cellSize), jsTrunc (y1 / h.cellSize)) ∈
      cellsUnderSegment h x1 y1 x2 y2 eps := by
  by_cases hc : jsTrunc (x1 / h.cellSize) = jsTrunc (x2 / h.cellSize) ∧
      jsTrunc (y1 / h.cellSize) = jsTrunc (y2 / h.cellSize)
  · rw [hc.1, hc.2]
    exact endCell_mem_cellsUnderSegment h x1 y1 x2 y2 eps
  · unfold cellsUnderSegment cellsUnderSegmentAux
    dsimp only
    apply mem_out_segEmit
    apply mem_out_emitNbrs
    exact startCenter_mem_out_segLoopGo (goodState_init x1 y1 _ _) _ _ _ _ _ _ _ _ _ _ _ hc

/-- C6: For every input segment and eps, cellsUnderSegment never yields the
same cell coordinate twice within one call: whether a cell is reached again
by the traversal walk or re-derived as a boundary/diagonal neighbor
(including in the final endpoint pass), each distinct cell appears at most
once in the yielded sequence. -/
theorem C6_cellsUnderSegment_nodup {α : Type} (h : SpatialHash α)
    (x1 y1 x2 y2 eps : ℚ) : (cellsUnderSegment h x1 y1 x2 y2 eps).Nodup :=
  (goodState_cellsUnderSegmentAux h x1 y1 x2 y2 eps).1

/-- C7 (counterexample): on the segment (5,5)-(-5,14) with cell size 10 the
main traversal loop executes 2 iterations, while the Manhattan distance in
cells between the start cell and the end cell is 1: a spurious x-advance is
taken at the truncation-induced cell mismatch around x = 0, so the claimed
bound (at most Manhattan-distance many iterations) fails. -/
theorem C7_counterexample :
    (cellsUnderSegmentAux segHash10 5 5 (-5) 14 5).iter = 2 ∧
    (jsTrunc ((-5 : ℚ) / 10) - jsTrunc ((5 : ℚ) / 10)).natAbs +
      (jsTrunc ((14 : ℚ) / 10) - jsTrunc ((5 : ℚ) / 10)).natAbs = 1 :=
  of_decide_eq_true (by with_unfolding_all rfl)

/-- C7 (amended): for every input (including degenerate slopes, axis-aligned
segments, and zero-length segments) the traversal function is total and the
main loop executes at most Manhattan distance + 1 iterations, where the
Manhattan distance is taken between the start cell of (x1,y1) and the end
cell of (x2,y2); the loop guard iter <= steps admits exactly one more
iteration than the cap value itself. -/
theorem C7_iter_bound {α : Type} (h : SpatialHash α) (x1 y1 x2 y2 eps : ℚ) :
    (cellsUnderSegmentAux h x1 y1 x2 y2 eps).iter ≤
      (jsTrunc (x2 / h.cellSize) - jsTrunc (x1 / h.cellSize)).natAbs +
      (jsTrunc (y2 / h.cellSize) - jsTrunc (y1 / h.cellSize)).natAbs + 1 := by
  unfold cellsUnderSegmentAux
  dsimp only
  rw [segEmit_iter, emitNbrs_iter]
  have hb := segLoopGo_iter_le
    (⟨x1, y1, jsTrunc (x1 / h.cellSize), jsTrunc (y1 / h.cellSize), 0, [], []⟩ : SegState)
    h.cellSize eps (x2 - x1) (y2 - y1) (jsSign (x2 - x1)) (jsSign (y2 - y1))
    (if x2 - x1 = 0 then 0 else |(y2 - y1) / (x2 - x1)|)
    (if y2 - y1 = 0 then 0 else |(x2 - x1) / (y2 - y1)|)
    (jsTrunc (x2 / h.cellSize)) (jsTrunc (y2 / h.cellSize))
    ((jsTrunc (x2 / h.cellSize) - jsTrunc (x1 / h.cellSize)).natAbs +
      (jsTrunc (y2 / h.cellSize) - jsTrunc (y1 / h.cellSize)).natAbs + 1)
  simpa using hb

/-- C1 (code bug): the enumerator misses a cell lying within eps of the
segment.  For the segment (5, 1/2)-(15, 7/2) with cell size 10 and eps = 2,
the point (10, 0) lies in the cell square of cell (1, -1) and within
squared distance eps^2 of the segment (the segment passes through (10, 2)),
yet cellsUnderSegment never yields (1, -1): the loop body only checks
boundary distances at each step's start point, and the end cell is entered
without its entry point ever being checked, while the final pass checks
only the true endpoint (15, 7/2), which is farther than eps from the top
boundary. -/
theorem C1_code_bug_eval :
    cellSquareContains 10 (1, -1) (10, 0) ∧
    segPointDistSq 5 (1/2) 15 (7/2) 10 0 ≤ 2 * 2 ∧
    ((1 : ℤ), (-1 : ℤ)) ∉ cellsUnderSegment segHash10 5 (1/2) 15 (7/2) 2 :=
  of_decide_eq_true (by with_unfolding_all rfl)

/-- C3 (code bug): two records with identical endpoints (2,2)-(3,3) and
distinct values 7 and 8 are both stored; the query (2,3)-(3,2) intersects
that geometry, but findIntersects yields only the value-7 record — the
adjacent-duplicate suppression compares endpoint coordinates only, so the
distinct value-8 record is never yielded, violating completeness. -/
theorem C3_code_bug_eval :
    mapFind dupSegHash.map (0, 0) =
      some [JSVal.num 2, JSVal.num 2, JSVal.num 3, JSVal.num 3, JSVal.val 7,
        JSVal.num 2, JSVal.num 2, JSVal.num 3, JSVal.num 3, JSVal.val 8] ∧
    intersectSegments 2 3 3 2 2 2 3 3 = true ∧
    findIntersects dupSegHash 2 3 3 2 1 = [(2, 2, 3, 3, JSVal.val 7)] :=
  of_decide_eq_true (by with_unfolding_all rfl)

/-- C10: All query operations are read-only: findPoint, findSegment,
findIndex, findValues, nearbyPoints, pointsNearSegment, findIntersects,
cellsUnderExtent, and cellsUnderSegment leave the index's cell mapping
(every key and every cell list) exactly unchanged, even after their lazy
result sequences are fully consumed: the state component of each query's
state-threading translation is the input state itself. -/
theorem C10_queries_readonly {α : Type} [DecidableEq α] (h : SpatialHash α)
    (cellX cellY : ℤ) (args : List (JSVal α)) (x y x1 y1 x2 y2 cx cy r eps w ht : ℚ) :
    (findIndexS h cellX cellY args).2 = h ∧
    (findValuesS h cellX cellY args).2 = h ∧
    (findPointS h x y).2 = h ∧
    (findSegmentS h x1 y1 x2 y2).2 = h ∧
    (nearbyPointsS h cx cy r).2 = h ∧
    (pointsNearSegmentS h x1 y1 x2 y2 eps).2 = h ∧
    (findIntersectsS h x1 y1 x2 y2 eps).2 = h ∧
    (cellsUnderExtentS h x y w ht).2 = h ∧
    (cellsUnderSegmentS h x1 y1 x2 y2 eps).2 = h :=
  ⟨rfl, rfl, rfl, rfl, rfl, rfl, rfl, rfl, rfl⟩

/-!
Association-list lemmas for the cell mapping.
-/

theorem mapFind_mapSet {α : Type} (m : List ((ℤ × ℤ) × List (JSVal α)))
    (k k' : ℤ × ℤ) (arr : List (JSVal α)) :
    mapFind (mapSet m k arr) k' = if k' = k then some arr else mapFind m k' := by
  induction m with
  | nil =>
    simp only [mapSet, mapFind]
    split_ifs <;> first | rfl | (exfalso; simp_all)
  | cons e rest ih =>
    simp only [mapSet]
    by_cases he : e.1 = k
    · rw [if_pos he]
      simp only [mapFind]
      split_ifs <;> first | rfl | (exfalso; simp_all)
    · rw [if_neg he]
      simp only [mapFind]
      rw [ih]
      split_ifs <;> first | rfl | (exfalso; simp_all)

theorem mapFind_mapDelete_ne {α : Type} (m : List ((ℤ × ℤ) × List (JSVal α)))
    (k k' : ℤ × ℤ) (hne : k' ≠ k) :
    mapFind (mapDelete m k) k' = mapFind m k' := by
  induction m with
  | nil => rfl
  | cons e rest ih =>
    simp only [mapDelete]
    by_cases he : e.1 = k
    · rw [if_pos he]
      simp only [mapFind]
      rw [if_neg (fun hk => hne (by rw [← hk, he]))]
    · rw [if_neg he]
      simp only [mapFind]
      rw [ih]

theorem mapFind_eq_none_of_not_mem_keys {α : Type}
    {m : List ((ℤ × ℤ) × List (JSVal α))} {k : ℤ × ℤ} (hk : k ∉ mapKeys m) :
    mapFind m k = none := by
  induction m with
  | nil => rfl
  | cons e rest ih =>
    simp only [mapKeys, List.map_cons, List.mem_cons, not_or] at hk
    simp only [mapFind]
    rw [if_neg (fun he => hk.1 he.symm)]
    exact ih (by simpa [mapKeys] using hk.2)

theorem mapFind_mapDelete_self {α : Type} {m : List ((ℤ × ℤ) × List (JSVal α))}
    (hnd : NodupKeys m) (k : ℤ × ℤ) :
    mapFind (mapDelete m k) k = none := by
  induction m with
  | nil => rfl
  | cons e rest ih =>
    have hcons := List.nodup_cons.mp hnd
    simp only [mapDelete]
    by_cases he : e.1 = k
    · rw [if_pos he]
      exact mapFind_eq_none_of_not_mem_keys (he ▸ hcons.1)
    · rw [if_neg he]
      simp only [mapFind]
      rw [if_neg he]
      exact ih hcons.2

/-- C4 (counterexample): with cell size 10, addPoint(-5, -5, 0) stores the
record under the truncated cell (0, 0), not under the floor cell (-1, -1)
claimed by the specification: floor(-5/10) = -1 but the JS (x / sz) | 0
truncates toward zero. -/
theorem C4_counterexample :
    mapFind (addPoint ptHash10 (-5) (-5) 0).map (0, 0) =
      some [JSVal.num (-5), JSVal.num (-5), JSVal.val 0] ∧
    mapFind (addPoint ptHash10 (-5) (-5) 0).map (-1, -1) = none ∧
    ⌊(-5 : ℚ) / 10⌋ = -1 :=
  of_decide_eq_true (by with_unfolding_all rfl)

/-- C4 (amended): for every state and every real coordinate pair,
addPoint(x, y, v) appends the record x, y, v to exactly the one cell
(trunc(x/cellSize), trunc(y/cellSize)) — truncation toward zero, which
coincides with floor for nonnegative coordinates — and leaves every other
cell unchanged. -/
theorem C4_addPoint_cell {α : Type} (h : SpatialHash α) (x y : ℚ) (v : α)
    (k : ℤ × ℤ) :
    mapFind (addPoint h x y v).map k =
      if k = (jsTrunc (x / h.cellSize), jsTrunc (y / h.cellSize)) then
        some ((mapFind h.map k).getD [] ++ [JSVal.num x, JSVal.num y, JSVal.val v])
      else mapFind h.map k := by
  unfold addPoint addAt
  dsimp only
  rw [mapFind_mapSet]
  by_cases hk : k = (jsTrunc (x / h.cellSize), jsTrunc (y / h.cellSize))
  · rw [if_pos hk, if_pos hk, hk]
  · rw [if_neg hk, if_neg hk]

/-!
findSubArray specification lemmas.
-/

theorem matchesAt_true_iff {α : Type} [DecidableEq α] (arr args : List (JSVal α)) :
    matchesAt arr args = true ↔ args <+: arr := by
  induction args generalizing arr with
  | nil => simp [matchesAt, List.nil_prefix]
  | cons b bs ih =>
    cases arr with
    | nil => simp [matchesAt]
    | cons a arr' =>
      simp only [matchesAt, Bool.and_eq_true, beq_iff_eq, List.cons_prefix_cons, ih]
      constructor
      · rintro ⟨rfl, hp⟩; exact ⟨rfl, hp⟩
      · rintro ⟨rfl, hp⟩; exact ⟨rfl, hp⟩

theorem findSubArrayGo_first {α : Type} [DecidableEq α] (arr : List (JSVal α))
    (s : ℕ) (args : List (JSVal α)) :
    ∀ (k0 i fuel : ℕ), k0 + 1 ≤ fuel → i + k0 * s < arr.length →
    matchesAt (arr.drop (i + k0 * s)) args = true →
    (∀ j, j < k0 → matchesAt (arr.drop (i + j * s)) args = false) →
    findSubArrayGo arr s args fuel i = ((i + k0 * s : ℕ) : ℤ) := by
  intro k0
  induction k0 with
  | zero =>
    intro i fuel hfuel hlen hmatch _
    match fuel, hfuel with
    | f + 1, _ =>
      unfold findSubArrayGo
      rw [if_pos (by omega), if_pos (by simpa using hmatch)]
      simp
  | succ k ih =>
    intro i fuel hfuel hlen hmatch hbefore
    match fuel, hfuel with
    | f + 1, hfuel =>
      unfold findSubArrayGo
      rw [if_pos (by omega)]
      rw [if_neg ?_]
      · have h1 : (i + s) + k * s = i + (k + 1) * s := by ring
        rw [show ((i + (k + 1) * s : ℕ) : ℤ) = ((i + s) + k * s : ℕ) from by rw [h1]]
        apply ih (i + s) f (by omega) (by omega) (by rw [h1]; exact hmatch)
        intro j hj
        have h2 : (i + s) + j * s = i + (j + 1) * s := by ring
        rw [h2]
        exact hbefore (j + 1) (by omega)
      · have h0 := hbefore 0 (by omega)
        simp only [Nat.zero_mul, Nat.add_zero] at h0
        simp [h0]

theorem findSubArrayGo_ne_neg {α : Type} [DecidableEq α] (arr : List (JSVal α))
    (s : ℕ) (args : List (JSVal α)) (hs : 0 < s) :
    ∀ (fuel i : ℕ), arr.length ≤ i + fuel →
    (∃ k : ℕ, i + k * s < arr.length ∧ matchesAt (arr.drop (i + k * s)) args = true) →
    findSubArrayGo arr s args fuel i ≠ -1 := by
  intro fuel
  induction fuel with
  | zero =>
    intro i hlen ⟨k, hk, _⟩
    omega
  | succ f ih =>
    intro i hlen ⟨k, hk, hmatch⟩
    have hi : i < arr.length := by
      have : i ≤ i + k * s := Nat.le_add_right _ _
      omega
    unfold findSubArrayGo
    rw [if_pos hi]
    by_cases hm : matchesAt (arr.drop i) args = true
    · rw [if_pos hm]
      omega
    · rw [if_neg hm]
      rcases k with _ | k'
      · exfalso
        apply hm
        simpa using hmatch
      · have hrw : i + (k' + 1) * s = (i + s) + k' * s := by ring
        apply ih (i + s) (by omega)
        refine ⟨k', by omega, ?_⟩
        rw [← hrw]
        exact hmatch

theorem findSubArrayGo_sound {α : Type} [DecidableEq α] (arr : List (JSVal α))
    (s : ℕ) (args : List (JSVal α)) :
    ∀ (fuel i : ℕ), findSubArrayGo arr s args fuel i ≠ -1 →
    ∃ k : ℕ, findSubArrayGo arr s args fuel i = ((i + k * s : ℕ) : ℤ) ∧
      i + k * s < arr.length ∧ matchesAt (arr.drop (i + k * s)) args = true := by
  intro fuel
  induction fuel with
  | zero =>
    intro i hne
    exact absurd rfl hne
  | succ f ih =>
    intro i hne
    unfold findSubArrayGo at hne ⊢
    by_cases hi : i < arr.length
    · rw [if_pos hi] at hne ⊢
      by_cases hm : matchesAt (arr.drop i) args = true
      · rw [if_pos hm] at hne ⊢
        exact ⟨0, by simp, by simpa using hi, by simpa using hm⟩
      · rw [if_neg hm] at hne ⊢
        obtain ⟨k', hk1, hk2, hk3⟩ := ih (i + s) hne
        have hrw : i + (k' + 1) * s = (i + s) + k' * s := by ring
        refine ⟨k' + 1, ?_, by omega, ?_⟩
        · rw [hk1]
          congr 1
          omega
        · rw [hrw]
          exact hk3
    · rw [if_neg hi] at hne
      exact absurd rfl hne

theorem matchesAt_append_eq {α : Type} [DecidableEq α]
    (A rec args : List (JSVal α)) (hlen : args.length ≤ A.length) :
    matchesAt (A ++ rec) args = matchesAt A args := by
  have hiff : matchesAt (A ++ rec) args = true ↔ matchesAt A args = true := by
    rw [matchesAt_true_iff, matchesAt_true_iff]
    constructor
    · intro hp
      rw [List.prefix_iff_eq_take] at hp ⊢
      rw [List.take_append_of_le_length hlen] at hp
      exact hp
    · intro hp
      exact hp.trans (List.prefix_append A rec)
  by_cases hb : matchesAt A args = true
  · rw [hb, hiff.mpr hb]
  · have h1 : matchesAt (A ++ rec) args = false := by
      rw [Bool.eq_false_iff]
      intro hc
      exact hb (hiff.mp hc)
    have h2 : matchesAt A args = false := by
      rw [Bool.eq_false_iff]
      exact hb
    rw [h1, h2]

theorem findValues_append_spec {α : Type} [DecidableEq α] (h' : SpatialHash α)
    (k : ℤ × ℤ) (old rec args : List (JSVal α)) (s : ℕ) (hs : 0 < s)
    (hmap : mapFind h'.map (k.1, k.2) = some (old ++ rec))
    (hstride : h'.numElements = s)
    (hrec : rec.length = s)
    (hargs : args <+: rec)
    (hdvd : s ∣ old.length) :
    (∃ r, findValues h' k.1 k.2 args = some r ∧ r.take args.length = args) ∧
    ((∀ j : ℕ, matchesAt (old.drop (j * s)) args = false) →
      findValues h' k.1 k.2 args = some rec) := by
  obtain ⟨t, ht⟩ := hdvd
  have htlen : old.length = t * s := by rw [ht, Nat.mul_comm]
  have hlen : (old ++ rec).length = old.length + s := by
    rw [List.length_append, hrec]
  have hmatchend : matchesAt ((old ++ rec).drop old.length) args = true := by
    rw [List.drop_left]
    exact (matchesAt_true_iff rec args).mpr hargs
  have hargslen : args.length ≤ s := hrec ▸ hargs.length_le
  have hne : findSubArray (old ++ rec) s args ≠ -1 := by
    unfold findSubArray
    apply findSubArrayGo_ne_neg (old ++ rec) s args hs ((old ++ rec).length + 1) 0
      (by omega)
    exact ⟨t, by omega, by rw [Nat.zero_add, ← htlen]; exact hmatchend⟩
  constructor
  · obtain ⟨k1, hk1, hk2, hk3⟩ :=
      findSubArrayGo_sound (old ++ rec) s args ((old ++ rec).length + 1) 0
        (by unfold findSubArray at hne; exact hne)
    simp only [Nat.zero_add] at hk1 hk2 hk3
    have hk1' : findSubArray (old ++ rec) s args = ((k1 * s : ℕ) : ℤ) := by
      unfold findSubArray
      exact hk1
    refine ⟨((old ++ rec).drop (k1 * s)).take s, ?_, ?_⟩
    · unfold findValues
      simp only [hmap, hstride]
      rw [if_neg hne, hk1', Int.toNat_natCast]
    · rw [List.take_take, min_eq_left hargslen]
      have hp := (matchesAt_true_iff _ args).mp hk3
      rw [List.prefix_iff_eq_take] at hp
      exact hp.symm
  · intro hnone
    have hfirst : findSubArray (old ++ rec) s args = ((0 + t * s : ℕ) : ℤ) := by
      unfold findSubArray
      apply findSubArrayGo_first (old ++ rec) s args t 0 ((old ++ rec).length + 1)
        (by have : t ≤ t * s := Nat.le_mul_of_pos_right t hs; omega)
        (by omega)
        (by rw [Nat.zero_add, ← htlen]; exact hmatchend)
      intro j hj
      have hjs : j * s + args.length ≤ old.length := by
        have h1 : j + 1 ≤ t := hj
        have h2 : (j + 1) * s ≤ t * s := Nat.mul_le_mul_right s h1
        have h3 : j * s + s = (j + 1) * s := by ring
        omega
      rw [Nat.zero_add]
      rw [List.drop_append_of_le_length (by omega)]
      rw [matchesAt_append_eq (old.drop (j * s)) rec args
        (by rw [List.length_drop]; omega)]
      exact hnone j
    unfold findValues
    simp only [hmap, hstride]
    rw [if_neg hne, hfirst]
    simp only [Nat.zero_add, Int.toNat_natCast]
    rw [← htlen, List.drop_left, ← hrec]
    simp

theorem addAt_numElements {α : Type} (h : SpatialHash α) (cx cy : ℤ)
    (args : List (JSVal α)) : (addAt h cx cy args).numElements = h.numElements := rfl

theorem addAt_cellSize {α : Type} (h : SpatialHash α) (cx cy : ℤ)
    (args : List (JSVal α)) : (addAt h cx cy args).cellSize = h.cellSize := rfl

theorem foldl_addAt_numElements {α : Type} (cells : List (ℤ × ℤ))
    (rec : List (JSVal α)) (h : SpatialHash α) :
    (cells.foldl (fun hh c => addAt hh c.1 c.2 rec) h).numElements = h.numElements := by
  induction cells generalizing h with
  | nil => rfl
  | cons c rest ih => exact ih (addAt h c.1 c.2 rec)

theorem foldl_addAt_cellSize {α : Type} (cells : List (ℤ × ℤ))
    (rec : List (JSVal α)) (h : SpatialHash α) :
    (cells.foldl (fun hh c => addAt hh c.1 c.2 rec) h).cellSize = h.cellSize := by
  induction cells generalizing h with
  | nil => rfl
  | cons c rest ih => exact ih (addAt h c.1 c.2 rec)

theorem mapFind_addAt {α : Type} (h : SpatialHash α) (c : ℤ × ℤ)
    (rec : List (JSVal α)) (k : ℤ × ℤ) :
    mapFind (addAt h c.1 c.2 rec).map k =
      if k = c then some ((mapFind h.map c).getD [] ++ rec) else mapFind h.map k := by
  unfold addAt
  dsimp only
  rw [mapFind_mapSet]

theorem foldl_addAt_map {α : Type} (cells : List (ℤ × ℤ)) (rec : List (JSVal α)) :
    ∀ (h : SpatialHash α) (k : ℤ × ℤ), cells.Nodup →
    mapFind ((cells.foldl (fun hh c => addAt hh c.1 c.2 rec) h).map) k =
      if k ∈ cells then some ((mapFind h.map k).getD [] ++ rec) else mapFind h.map k := by
  induction cells with
  | nil =>
    intro h k _
    simp
  | cons c rest ih =>
    intro h k hnd
    have hcnotin : c ∉ rest := (List.nodup_cons.mp hnd).1
    have hndrest : rest.Nodup := (List.nodup_cons.mp hnd).2
    simp only [List.foldl_cons]
    rw [ih (addAt h c.1 c.2 rec) k hndrest]
    by_cases hk : k ∈ c :: rest
    · rw [if_pos hk]
      rcases List.mem_cons.mp hk with rfl | hkr
      · rw [if_neg hcnotin, mapFind_addAt]
        rw [if_pos rfl]
      · have hkc : k ≠ c := fun hkc => hcnotin (hkc ▸ hkr)
        rw [if_pos hkr, mapFind_addAt, if_neg hkc]
    · have hk1 : k ∉ rest := fun hm => hk (List.mem_cons_of_mem _ hm)
      have hk2 : k ≠ c := fun hkc => hk (hkc ▸ List.mem_cons_self _ _)
      rw [if_neg hk, if_neg hk1, mapFind_addAt, if_neg hk2]

theorem mapFind_mem {α : Type} {m : List ((ℤ × ℤ) × List (JSVal α))} {k : ℤ × ℤ}
    {arr : List (JSVal α)} (hf : mapFind m k = some arr) : (k, arr) ∈ m := by
  induction m with
  | nil => exact absurd hf (by simp [mapFind])
  | cons e rest ih =>
    unfold mapFind at hf
    by_cases he : e.1 = k
    · rw [if_pos he] at hf
      have harr : arr = e.2 := (Option.some_injective _ hf).symm
      subst harr
      rw [← he]
      exact List.mem_cons_self e rest
    · rw [if_neg he] at hf
      exact List.mem_cons_of_mem _ (ih hf)

theorem dvd_getD_length {α : Type} (s : ℕ) (m : List ((ℤ × ℤ) × List (JSVal α)))
    (k : ℤ × ℤ) (hwf : ∀ e ∈ m, s ∣ e.2.length) :
    s ∣ ((mapFind m k).getD []).length := by
  cases hf : mapFind m k with
  | none => simp
  | some arr =>
    have := hwf (k, arr) (mapFind_mem hf)
    simpa using this

/-- C5: Round-trip.  For every point added via addPoint, a subsequent
findPoint with the same coordinates returns a stored record with exactly
those coordinates, and exactly the record x, y, v when no already stored
record shares those coordinates; likewise for every segment added via
addSegment, a subsequent findSegment — which looks only in the cell
containing (x1,y1) — returns such a record, and the start point's cell is
always among the segment's covering cells.  The stride hypotheses say the
state is a well-formed point (stride 3) or segment (stride 5) index. -/
theorem C5_roundtrip {α : Type} [DecidableEq α] :
    (∀ (h : SpatialHash α) (x y : ℚ) (v : α),
      h.numElements = 3 →
      (∀ e ∈ h.map, (3 : ℕ) ∣ e.2.length) →
      (∃ r, findPoint (addPoint h x y v) x y = some r ∧
        r.take 2 = [JSVal.num x, JSVal.num y]) ∧
      ((∀ j : ℕ, ¬ ([JSVal.num x, JSVal.num y] <+:
          (((mapFind h.map (jsTrunc (x / h.cellSize),
            jsTrunc (y / h.cellSize))).getD []).drop (j * 3)))) →
        findPoint (addPoint h x y v) x y =
          some [JSVal.num x, JSVal.num y, JSVal.val v])) ∧
    (∀ (h : SpatialHash α) (x1 y1 x2 y2 : ℚ) (v : α),
      h.numElements = 5 →
      (∀ e ∈ h.map, (5 : ℕ) ∣ e.2.length) →
      (jsTrunc (x1 / h.cellSize), jsTrunc (y1 / h.cellSize)) ∈
        cellsUnderSegment h x1 y1 x2 y2 (h.cellSize / 2) ∧
      (∃ r, findSegment (addSegment h x1 y1 x2 y2 v) x1 y1 x2 y2 = some r ∧
        r.take 4 = [JSVal.num x1, JSVal.num y1, JSVal.num x2, JSVal.num y2]) ∧
      ((∀ j : ℕ, ¬ ([JSVal.num x1, JSVal.num y1, JSVal.num x2, JSVal.num y2] <+:
          (((mapFind h.map (jsTrunc (x1 / h.cellSize),
            jsTrunc (y1 / h.cellSize))).getD []).drop (j * 5)))) →
        findSegment (addSegment h x1 y1 x2 y2 v) x1 y1 x2 y2 =
          some [JSVal.num x1, JSVal.num y1, JSVal.num x2, JSVal.num y2, JSVal.val v])) := by
  constructor
  · intro h x y v hstride hwf
    have hcs : (addPoint h x y v).cellSize = h.cellSize := rfl
    have hmapeq : mapFind (addPoint h x y v).map
        (jsTrunc (x / h.cellSize), jsTrunc (y / h.cellSize)) =
        some (((mapFind h.map (jsTrunc (x / h.cellSize),
          jsTrunc (y / h.cellSize))).getD []) ++
          [JSVal.num x, JSVal.num y, JSVal.val v]) := by
      unfold addPoint
      rw [mapFind_addAt h (jsTrunc (x / h.cellSize), jsTrunc (y / h.cellSize))
        [JSVal.num x, JSVal.num y, JSVal.val v]]
      rw [if_pos rfl]
    have hspec := findValues_append_spec (addPoint h x y v)
      (jsTrunc (x / h.cellSize), jsTrunc (y / h.cellSize))
      ((mapFind h.map (jsTrunc (x / h.cellSize), jsTrunc (y / h.cellSize))).getD [])
      [JSVal.num x, JSVal.num y, JSVal.val v]
      [JSVal.num x, JSVal.num y] 3 (by omega) hmapeq hstride rfl
      ⟨[JSVal.val v], rfl⟩
      (dvd_getD_length 3 h.map _ hwf)
    constructor
    · obtain ⟨r, hr1, hr2⟩ := hspec.1
      exact ⟨r, by unfold findPoint; rw [hcs]; exact hr1, hr2⟩
    · intro hnone
      have hnone' : ∀ j : ℕ, matchesAt
          (((mapFind h.map (jsTrunc (x / h.cellSize),
            jsTrunc (y / h.cellSize))).getD []).drop (j * 3))
          [JSVal.num x, JSVal.num y] = false := by
        intro j
        rw [Bool.eq_false_iff]
        intro hc
        exact hnone j ((matchesAt_true_iff _ _).mp hc)
      unfold findPoint
      rw [hcs]
      exact hspec.2 hnone'
  · intro h x1 y1 x2 y2 v hstride hwf
    have hnodup : (cellsUnderSegment h x1 y1 x2 y2 (h.cellSize / 2)).Nodup :=
      (goodState_cellsUnderSegmentAux h x1 y1 x2 y2 (h.cellSize / 2)).1
    have hmem := startCell_mem_cellsUnderSegment h x1 y1 x2 y2 (h.cellSize / 2)
    refine ⟨hmem, ?_⟩
    have hcs : (addSegment h x1 y1 x2 y2 v).cellSize = h.cellSize :=
      foldl_addAt_cellSize _ _ h
    have hstride' : (addSegment h x1 y1 x2 y2 v).numElements = 5 := by
      rw [show (addSegment h x1 y1 x2 y2 v).numElements = h.numElements from
        foldl_addAt_numElements _ _ h]
      exact hstride
    have hmapeq : mapFind (addSegment h x1 y1 x2 y2 v).map
        (jsTrunc (x1 / h.cellSize), jsTrunc (y1 / h.cellSize)) =
        some (((mapFind h.map (jsTrunc (x1 / h.cellSize),
          jsTrunc (y1 / h.cellSize))).getD []) ++ segRecord x1 y1 x2 y2 v) := by
      unfold addSegment
      rw [foldl_addAt_map _ _ h _ hnodup, if_pos hmem]
    have hspec := findValues_append_spec (addSegment h x1 y1 x2 y2 v)
      (jsTrunc (x1 / h.cellSize), jsTrunc (y1 / h.cellSize))
      ((mapFind h.map (jsTrunc (x1 / h.cellSize),
        jsTrunc (y1 / h.cellSize))).getD [])
      (segRecord x1 y1 x2 y2 v)
      [JSVal.num x1, JSVal.num y1, JSVal.num x2, JSVal.num y2] 5 (by omega)
      hmapeq hstride' rfl ⟨[JSVal.val v], rfl⟩
      (dvd_getD_length 5 h.map _ hwf)
    constructor
    · obtain ⟨r, hr1, hr2⟩ := hspec.1
      exact ⟨r, by unfold findSegment; rw [hcs]; exact hr1, hr2⟩
    · intro hnone
      have hnone' : ∀ j : ℕ, matchesAt
          (((mapFind h.map (jsTrunc (x1 / h.cellSize),
            jsTrunc (y1 / h.cellSize))).getD []).drop (j * 5))
          [JSVal.num x1, JSVal.num y1, JSVal.num x2, JSVal.num y2] = false := by
        intro j
        rw [Bool.eq_false_iff]
        intro hc
        exact hnone j ((matchesAt_true_iff _ _).mp hc)
      unfold findSegment
      rw [hcs]
      exact hspec.2 hnone'

/-- C5 witness: the round-trip theorem applied to a concrete point and a
concrete segment on empty indexes with cell size 10. -/
theorem C5_roundtrip_witness :
    findPoint (addPoint ptHash10 12 14 0) 12 14 =
      some [JSVal.num 12, JSVal.num 14, JSVal.val 0] ∧
    findSegment (addSegment segHash10 7 7 9 28 1) 7 7 9 28 =
      some [JSVal.num 7, JSVal.num 7, JSVal.num 9, JSVal.num 28, JSVal.val 1] := by
  constructor
  · apply (C5_roundtrip.1 ptHash10 12 14 0 rfl
      (fun e he => absurd he (List.not_mem_nil e))).2
    intro j hp
    have hnil : ((mapFind ptHash10.map (jsTrunc ((12 : ℚ) / ptHash10.cellSize),
      jsTrunc ((14 : ℚ) / ptHash10.cellSize))).getD []) = ([] : List (JSVal ℕ)) := rfl
    rw [hnil, List.drop_nil] at hp
    simpa using List.prefix_nil.mp hp
  · apply ((C5_roundtrip.2 segHash10 7 7 9 28 1 rfl
      (fun e he => absurd he (List.not_mem_nil e))).2.2)
    intro j hp
    have hnil : ((mapFind segHash10.map (jsTrunc ((7 : ℚ) / segHash10.cellSize),
      jsTrunc ((7 : ℚ) / segHash10.cellSize))).getD []) = ([] : List (JSVal ℕ)) := rfl
    rw [hnil, List.drop_nil] at hp
    simpa using List.prefix_nil.mp hp

theorem mem_mapSet_cases {α : Type} {m : List ((ℤ × ℤ) × List (JSVal α))}
    {k : ℤ × ℤ} {arr : List (JSVal α)} {e : (ℤ × ℤ) × List (JSVal α)}
    (he : e ∈ mapSet m k arr) : e = (k, arr) ∨ e ∈ m := by
  induction m with
  | nil =>
    simp only [mapSet] at he
    rcases List.mem_singleton.mp he with rfl
    exact Or.inl rfl
  | cons f rest ih =>
    simp only [mapSet] at he
    by_cases hf : f.1 = k
    · rw [if_pos hf] at he
      rcases List.mem_cons.mp he with rfl | hr
      · exact Or.inl rfl
      · exact Or.inr (List.mem_cons_of_mem _ hr)
    · rw [if_neg hf] at he
      rcases List.mem_cons.mp he with rfl | hr
      · exact Or.inr (List.mem_cons_self _ _)
      · rcases ih hr with h1 | h2
        · exact Or.inl h1
        · exact Or.inr (List.mem_cons_of_mem _ h2)

theorem mem_mapDelete_subset {α : Type} {m : List ((ℤ × ℤ) × List (JSVal α))}
    {k : ℤ × ℤ} {e : (ℤ × ℤ) × List (JSVal α)} (he : e ∈ mapDelete m k) : e ∈ m := by
  induction m with
  | nil => exact absurd he (List.not_mem_nil e)
  | cons f rest ih =>
    simp only [mapDelete] at he
    by_cases hf : f.1 = k
    · rw [if_pos hf] at he
      exact List.mem_cons_of_mem _ he
    · rw [if_neg hf] at he
      rcases List.mem_cons.mp he with rfl | hr
      · exact List.mem_cons_self _ _
      · exact List.mem_cons_of_mem _ (ih hr)

theorem addAt_strideInv {α : Type} (h : SpatialHash α) (cx cy : ℤ)
    (args : List (JSVal α)) (hinv : StrideInv h.numElements h.map)
    (hpos : 0 < h.numElements) (hargs : args.length = h.numElements) :
    StrideInv h.numElements (addAt h cx cy args).map := by
  intro e he
  unfold addAt at he
  dsimp only at he
  rcases mem_mapSet_cases he with rfl | hm
  · constructor
    · intro hcontra
      have h0 : args = [] := (List.append_eq_nil.mp hcontra).2
      rw [h0] at hargs
      simp at hargs
      omega
    · simp only [List.length_append, hargs]
      have hdvd := dvd_getD_length h.numElements h.map (cx, cy)
        (fun e' he' => (hinv e' he').2)
      exact Nat.dvd_add hdvd (Nat.dvd_refl _)
  · exact hinv e hm

theorem removeAt_numElements {α : Type} (h : SpatialHash α) (cx cy : ℤ) (idx : ℤ) :
    (removeAt h cx cy idx).2.numElements = h.numElements := by
  unfold removeAt
  cases hf : mapFind h.map (cx, cy) with
  | none => rfl
  | some arr =>
    dsimp only
    split <;> rfl

theorem removeAt_cellSize {α : Type} (h : SpatialHash α) (cx cy : ℤ) (idx : ℤ) :
    (removeAt h cx cy idx).2.cellSize = h.cellSize := by
  unfold removeAt
  cases hf : mapFind h.map (cx, cy) with
  | none => rfl
  | some arr =>
    dsimp only
    split <;> rfl

theorem removeAt_strideInv {α : Type} (h : SpatialHash α) (cx cy : ℤ) (idx : ℤ)
    (hinv : StrideInv h.numElements h.map)
    (hidx : ∀ arr, mapFind h.map (cx, cy) = some arr →
      ∃ k : ℕ, idx = ((k * h.numElements : ℕ) : ℤ) ∧
        k * h.numElements + h.numElements ≤ arr.length) :
    StrideInv h.numElements (removeAt h cx cy idx).2.map := by
  unfold removeAt
  cases hf : mapFind h.map (cx, cy) with
  | none => exact hinv
  | some arr =>
    obtain ⟨k, hk1, hk2⟩ := hidx arr hf
    have hstart : spliceStart arr.length idx = k * h.numElements := by
      unfold spliceStart
      rw [hk1]
      rw [if_neg (by omega)]
      rw [Int.toNat_natCast]
      omega
    dsimp only
    rw [hstart]
    have hlen' : (arr.take (k * h.numElements) ++
        arr.drop (k * h.numElements + h.numElements)).length =
        arr.length - h.numElements := by
      rw [List.length_append, List.length_take, List.length_drop]
      omega
    have hdvd : h.numElements ∣ arr.length := (hinv (_, arr) (mapFind_mem hf)).2
    have hdvd' : h.numElements ∣ arr.length - h.numElements :=
      Nat.dvd_sub' hdvd (Nat.dvd_refl _)
    split
    · intro e he
      exact hinv e (mem_mapDelete_subset he)
    · next hne =>
      intro e he
      rcases mem_mapSet_cases he with rfl | hm
      · refine ⟨?_, ?_⟩
        · intro hcontra
          apply hne
          rw [show (List.take (k * h.numElements) arr ++
            List.drop (k * h.numElements + h.numElements) arr) = [] from hcontra]
          rfl
        · show h.numElements ∣ (List.take (k * h.numElements) arr ++
            List.drop (k * h.numElements + h.numElements) arr).length
          rw [hlen']
          exact hdvd'
      · exact hinv e hm

theorem findIndex_found_bounds {α : Type} [DecidableEq α] (h : SpatialHash α)
    (cx cy : ℤ) (args : List (JSVal α))
    (hdvd : ∀ e ∈ h.map, h.numElements ∣ e.2.length)
    (hne : findIndex h cx cy args ≠ -1) :
    ∀ arr, mapFind h.map (cx, cy) = some arr →
      ∃ k : ℕ, findIndex h cx cy args = ((k * h.numElements : ℕ) : ℤ) ∧
        k * h.numElements + h.numElements ≤ arr.length := by
  intro arr hf
  unfold findIndex at hne ⊢
  rw [hf] at hne ⊢
  unfold findSubArray at hne ⊢
  obtain ⟨k, hk1, hk2, _⟩ :=
    findSubArrayGo_sound arr h.numElements args (arr.length + 1) 0 hne
  simp only [Nat.zero_add] at hk1 hk2
  refine ⟨k, hk1, ?_⟩
  obtain ⟨m0, hm0⟩ := hdvd ((cx, cy), arr) (mapFind_mem hf)
  have hmul : k * h.numElements < m0 * h.numElements := by
    rw [Nat.mul_comm m0 h.numElements, ← hm0]
    exact hk2
  have hklt : k < m0 := Nat.lt_of_mul_lt_mul_right hmul
  have hle : (k + 1) * h.numElements ≤ m0 * h.numElements :=
    Nat.mul_le_mul_right _ hklt
  have heq : (k + 1) * h.numElements = k * h.numElements + h.numElements := by ring
  rw [hm0, Nat.mul_comm h.numElements m0]
  omega

theorem removePoint_strideInv {α : Type} [DecidableEq α] (h : SpatialHash α)
    (x y : ℚ) (hs : h.numElements = 3) (hinv : StrideInv 3 h.map) :
    StrideInv 3 (removePoint h x y).2.map := by
  have hinv' : StrideInv h.numElements h.map := by rw [hs]; exact hinv
  unfold removePoint
  dsimp only
  by_cases hne : findIndex h (jsTrunc (x / h.cellSize)) (jsTrunc (y / h.cellSize))
      [JSVal.num x, JSVal.num y] = -1
  · rw [if_pos hne]
    exact hinv
  · rw [if_neg hne]
    dsimp only
    have hres := removeAt_strideInv h (jsTrunc (x / h.cellSize))
      (jsTrunc (y / h.cellSize)) _ hinv'
      (findIndex_found_bounds h _ _ _ (fun e he => (hinv' e he).2) hne)
    rw [hs] at hres
    exact hres

theorem removeSegmentGo_strideInv {α : Type} [DecidableEq α] (x1 y1 x2 y2 : ℚ) :
    ∀ (cells : List (ℤ × ℤ)) (h : SpatialHash α) (val : Option (JSVal α)),
      h.numElements = 5 → StrideInv 5 h.map →
      StrideInv 5 (removeSegmentGo x1 y1 x2 y2 cells h val).2.map := by
  intro cells
  induction cells with
  | nil =>
    intro h val _ hinv
    exact hinv
  | cons c rest ih =>
    intro h val hs hinv
    have hinv' : StrideInv h.numElements h.map := by rw [hs]; exact hinv
    unfold removeSegmentGo
    dsimp only
    by_cases hne : findIndex h c.1 c.2
        [JSVal.num x1, JSVal.num y1, JSVal.num x2, JSVal.num y2] = -1
    · rw [if_pos hne]
      exact hinv
    · rw [if_neg hne]
      apply ih
      · rw [removeAt_numElements]
        exact hs
      · have hres := removeAt_strideInv h c.1 c.2 _ hinv'
          (findIndex_found_bounds h _ _ _ (fun e he => (hinv' e he).2) hne)
        rw [hs] at hres
        exact hres

theorem foldl_addAt_strideInv {α : Type} (cells : List (ℤ × ℤ))
    (rec : List (JSVal α)) :
    ∀ (h : SpatialHash α) (s : ℕ), h.numElements = s → 0 < s → rec.length = s →
    StrideInv s h.map →
    StrideInv s ((cells.foldl (fun hh c => addAt hh c.1 c.2 rec) h).map) := by
  induction cells with
  | nil =>
    intro h s _ _ _ hinv
    exact hinv
  | cons c rest ih =>
    intro h s hs hpos hrec hinv
    simp only [List.foldl_cons]
    apply ih (addAt h c.1 c.2 rec) s
    · rw [addAt_numElements]
      exact hs
    · exact hpos
    · exact hrec
    · have hinv' : StrideInv h.numElements h.map := by rw [hs]; exact hinv
      have := addAt_strideInv h c.1 c.2 rec hinv' (by omega) (by omega)
      rw [hs] at this
      exact this

/-- C8: The invariant — every present cell key has a non-empty record list
whose length is an exact multiple of the index's stride (3 for points, 5
for segments), with absent keys holding no list at all — is preserved by
every public operation: addPoint, removePoint, addSegment, removeSegment,
and the underlying addAt and removeAt.  addAt is used with a record of
exactly stride length and removeAt with an offset produced by findIndex
(a record-aligned, in-range offset), as the spec's storage-primitive
contracts state. -/
theorem C8_invariant {α : Type} [DecidableEq α] :
    (∀ (h : SpatialHash α) (cx cy : ℤ) (args : List (JSVal α)),
      StrideInv h.numElements h.map → 0 < h.numElements →
      args.length = h.numElements →
      StrideInv h.numElements (addAt h cx cy args).map) ∧
    (∀ (h : SpatialHash α) (cx cy : ℤ) (idx : ℤ),
      StrideInv h.numElements h.map →
      (∀ arr, mapFind h.map (cx, cy) = some arr →
        ∃ k : ℕ, idx = ((k * h.numElements : ℕ) : ℤ) ∧
          k * h.numElements + h.numElements ≤ arr.length) →
      StrideInv h.numElements (removeAt h cx cy idx).2.map) ∧
    (∀ (h : SpatialHash α) (x y : ℚ) (v : α),
      h.numElements = 3 → StrideInv 3 h.map →
      StrideInv 3 (addPoint h x y v).map) ∧
    (∀ (h : SpatialHash α) (x y : ℚ),
      h.numElements = 3 → StrideInv 3 h.map →
      StrideInv 3 (removePoint h x y).2.map) ∧
    (∀ (h : SpatialHash α) (x1 y1 x2 y2 : ℚ) (v : α),
      h.numElements = 5 → StrideInv 5 h.map →
      StrideInv 5 (addSegment h x1 y1 x2 y2 v).map) ∧
    (∀ (h : SpatialHash α) (x1 y1 x2 y2 : ℚ),
      h.numElements = 5 → StrideInv 5 h.map →
      StrideInv 5 (removeSegment h x1 y1 x2 y2).2.map) := by
  refine ⟨?_, ?_, ?_, ?_, ?_, ?_⟩
  · intro h cx cy args hinv hpos hargs
    exact addAt_strideInv h cx cy args hinv hpos hargs
  · intro h cx cy idx hinv hidx
    exact removeAt_strideInv h cx cy idx hinv hidx
  · intro h x y v hs hinv
    have hinv' : StrideInv h.numElements h.map := by rw [hs]; exact hinv
    unfold addPoint
    have := addAt_strideInv h (jsTrunc (x / h.cellSize)) (jsTrunc (y / h.cellSize))
      [JSVal.num x, JSVal.num y, JSVal.val v] hinv' (by omega) (by rw [hs]; rfl)
    rw [hs] at this
    exact this
  · intro h x y hs hinv
    exact removePoint_strideInv h x y hs hinv
  · intro h x1 y1 x2 y2 v hs hinv
    unfold addSegment
    exact foldl_addAt_strideInv _ _ h 5 hs (by omega) rfl hinv
  · intro h x1 y1 x2 y2 hs hinv
    unfold removeSegment
    exact removeSegmentGo_strideInv x1 y1 x2 y2 _ h none hs hinv

/-- C8 witness: the invariant-preservation theorem applied to concrete
states and operations; the resulting invariant instances are evaluated. -/
theorem C8_invariant_witness :
    StrideInv 3 (addAt ptHash10 1 2 [JSVal.num 5, JSVal.num 6, JSVal.val 0]).map ∧
    StrideInv 3 (removeAt (addPoint ptHash10 5 5 0) 0 0 0).2.map ∧
    StrideInv 3 (addPoint ptHash10 12 14 0).map ∧
    StrideInv 3 (removePoint (addPoint ptHash10 12 14 0) 12 14).2.map ∧
    StrideInv 5 (addSegment segHash10 7 7 9 28 1).map ∧
    StrideInv 5 (removeSegment (addSegment segHash10 7 7 9 28 1) 7 7 9 28).2.map := by
  refine ⟨?_, ?_, ?_, ?_, ?_, ?_⟩
  · exact C8_invariant.1 ptHash10 1 2 _
      (of_decide_eq_true (by with_unfolding_all rfl))
      (of_decide_eq_true (by with_unfolding_all rfl)) rfl
  · apply C8_invariant.2.1 (addPoint ptHash10 5 5 0) 0 0 0
      (of_decide_eq_true (by with_unfolding_all rfl))
    intro arr harr
    have hcomp : mapFind (addPoint ptHash10 5 5 0).map (0, 0) =
        some [JSVal.num 5, JSVal.num 5, JSVal.val 0] :=
      of_decide_eq_true (by with_unfolding_all rfl)
    rw [hcomp] at harr
    obtain rfl : arr = [JSVal.num 5, JSVal.num 5, JSVal.val 0] :=
      (Option.some_injective _ harr).symm
    exact ⟨0, of_decide_eq_true (by with_unfolding_all rfl),
      of_decide_eq_true (by with_unfolding_all rfl)⟩
  · exact C8_invariant.2.2.1 ptHash10 12 14 0 rfl
      (of_decide_eq_true (by with_unfolding_all rfl))
  · exact C8_invariant.2.2.2.1 (addPoint ptHash10 12 14 0) 12 14 rfl
      (of_decide_eq_true (by with_unfolding_all rfl))
  · exact C8_invariant.2.2.2.2.1 segHash10 7 7 9 28 1 rfl
      (of_decide_eq_true (by with_unfolding_all rfl))
  · exact C8_invariant.2.2.2.2.2 (addSegment segHash10 7 7 9 28 1) 7 7 9 28
      (of_decide_eq_true (by with_unfolding_all rfl))
      (of_decide_eq_true (by with_unfolding_all rfl))

theorem mapFind_removeAt_ne {α : Type} (h : SpatialHash α) (cx cy : ℤ) (idx : ℤ)
    (k : ℤ × ℤ) (hk : k ≠ (cx, cy)) :
    mapFind (removeAt h cx cy idx).2.map k = mapFind h.map k := by
  unfold removeAt
  cases hf : mapFind h.map (cx, cy) with
  | none => rfl
  | some arr =>
    dsimp only
    split
    · exact mapFind_mapDelete_ne h.map (cx, cy) k hk
    · rw [mapFind_mapSet, if_neg hk]

theorem mem_mapKeys_mapSet {α : Type} {m : List ((ℤ × ℤ) × List (JSVal α))}
    {k k' : ℤ × ℤ} {arr : List (JSVal α)} (hk : k' ∈ mapKeys (mapSet m k arr)) :
    k' = k ∨ k' ∈ mapKeys m := by
  unfold mapKeys at hk
  obtain ⟨e, he, hek⟩ := List.mem_map.mp hk
  rcases mem_mapSet_cases he with rfl | hm
  · exact Or.inl (by rw [← hek])
  · exact Or.inr (List.mem_map.mpr ⟨e, hm, hek⟩)

theorem nodupKeys_mapSet {α : Type} {m : List ((ℤ × ℤ) × List (JSVal α))}
    (hnd : NodupKeys m) (k : ℤ × ℤ) (arr : List (JSVal α)) :
    NodupKeys (mapSet m k arr) := by
  induction m with
  | nil =>
    unfold NodupKeys mapKeys mapSet
    simp
  | cons e rest ih =>
    have hcons := List.nodup_cons.mp hnd
    unfold mapSet
    by_cases he : e.1 = k
    · unfold NodupKeys mapKeys
      rw [if_pos he]
      simp only [List.map_cons, List.nodup_cons]
      exact ⟨by rw [← he]; exact hcons.1, hcons.2⟩
    · unfold NodupKeys mapKeys
      rw [if_neg he]
      simp only [List.map_cons, List.nodup_cons]
      constructor
      · intro hmem
        rcases mem_mapKeys_mapSet hmem with h1 | h2
        · exact he h1
        · exact hcons.1 h2
      · exact ih hcons.2

theorem nodupKeys_mapDelete {α : Type} {m : List ((ℤ × ℤ) × List (JSVal α))}
    (hnd : NodupKeys m) (k : ℤ × ℤ) : NodupKeys (mapDelete m k) := by
  induction m with
  | nil => exact hnd
  | cons e rest ih =>
    have hcons := List.nodup_cons.mp hnd
    unfold mapDelete
    by_cases he : e.1 = k
    · rw [if_pos he]
      exact hcons.2
    · unfold NodupKeys mapKeys
      rw [if_neg he]
      simp only [List.map_cons, List.nodup_cons]
      constructor
      · intro hmem
        obtain ⟨f, hfm, hfk⟩ := List.mem_map.mp hmem
        exact hcons.1 (List.mem_map.mpr ⟨f, mem_mapDelete_subset hfm, hfk⟩)
      · exact ih hcons.2

theorem removeAt_nodupKeys {α : Type} (h : SpatialHash α) (cx cy : ℤ) (idx : ℤ)
    (hnd : NodupKeys h.map) : NodupKeys (removeAt h cx cy idx).2.map := by
  unfold removeAt
  cases hf : mapFind h.map (cx, cy) with
  | none => exact hnd
  | some arr =>
    dsimp only
    split
    · exact nodupKeys_mapDelete hnd (cx, cy)
    · exact nodupKeys_mapSet hnd (cx, cy) _

theorem findIndex_eq_neg_one_of_none {α : Type} [DecidableEq α]
    (h : SpatialHash α) (cx cy : ℤ) (args : List (JSVal α))
    (hf : mapFind h.map (cx, cy) = none) : findIndex h cx cy args = -1 := by
  unfold findIndex
  rw [hf]

theorem removeAt_findIndex_length {α : Type} [DecidableEq α] (h : SpatialHash α)
    (cx cy : ℤ) (args : List (JSVal α))
    (hdvd : ∀ e ∈ h.map, h.numElements ∣ e.2.length)
    (hnd : NodupKeys h.map)
    (hne : findIndex h cx cy args ≠ -1) :
    ((mapFind (removeAt h cx cy (findIndex h cx cy args)).2.map (cx, cy)).getD
      []).length + h.numElements = ((mapFind h.map (cx, cy)).getD []).length := by
  cases hf : mapFind h.map (cx, cy) with
  | none => exact absurd (findIndex_eq_neg_one_of_none h cx cy args hf) hne
  | some arr =>
    obtain ⟨k, hk1, hk2⟩ := findIndex_found_bounds h cx cy args hdvd hne arr hf
    unfold removeAt
    rw [hf]
    dsimp only
    have hstart : spliceStart arr.length (findIndex h cx cy args) =
        k * h.numElements := by
      unfold spliceStart
      rw [hk1]
      rw [if_neg (by omega)]
      rw [Int.toNat_natCast]
      omega
    rw [hstart]
    have hlen' : (arr.take (k * h.numElements) ++
        arr.drop (k * h.numElements + h.numElements)).length =
        arr.length - h.numElements := by
      rw [List.length_append, List.length_take, List.length_drop]
      omega
    split
    · next hemp =>
      rw [mapFind_mapDelete_self hnd]
      have h0 : (arr.take (k * h.numElements) ++
          arr.drop (k * h.numElements + h.numElements)).length = 0 := by
        rw [List.length_eq_zero]
        exact List.isEmpty_iff.mp hemp
      simp only [Option.getD_none, List.length_nil, Option.getD_some]
      omega
    · rw [mapFind_mapSet, if_pos rfl]
      simp only [Option.getD_some]
      omega

theorem findIndex_ne_neg_one_iff {α : Type} [DecidableEq α] (h : SpatialHash α)
    (cx cy : ℤ) (args : List (JSVal α)) (hpos : 0 < h.numElements) :
    findIndex h cx cy args ≠ -1 ↔
      ∃ j ∈ List.range (((mapFind h.map (cx, cy)).getD []).length),
        j * h.numElements < ((mapFind h.map (cx, cy)).getD []).length ∧
        matchesAt (((mapFind h.map (cx, cy)).getD []).drop (j * h.numElements))
          args = true := by
  cases hf : mapFind h.map (cx, cy) with
  | none =>
    constructor
    · intro hne
      exact absurd (findIndex_eq_neg_one_of_none h cx cy args hf) hne
    · rintro ⟨j, hjr, _⟩
      simp at hjr
  | some arr =>
    simp only [Option.getD_some]
    constructor
    · intro hne
      unfold findIndex at hne
      rw [hf] at hne
      unfold findSubArray at hne
      obtain ⟨k, _, hk2, hk3⟩ :=
        findSubArrayGo_sound arr h.numElements args (arr.length + 1) 0 hne
      simp only [Nat.zero_add] at hk2 hk3
      refine ⟨k, List.mem_range.mpr ?_, hk2, hk3⟩
      have : k ≤ k * h.numElements := Nat.le_mul_of_pos_right k hpos
      omega
    · rintro ⟨j, _, hj2, hj3⟩
      unfold findIndex
      rw [hf]
      unfold findSubArray
      exact findSubArrayGo_ne_neg arr h.numElements args hpos (arr.length + 1) 0
        (by omega) ⟨j, by omega, by simpa using hj3⟩

theorem findIndex_congr {α : Type} [DecidableEq α] (h h' : SpatialHash α)
    (cx cy : ℤ) (args : List (JSVal α))
    (hmap : mapFind h'.map (cx, cy) = mapFind h.map (cx, cy))
    (hnum : h'.numElements = h.numElements) :
    findIndex h' cx cy args = findIndex h cx cy args := by
  unfold findIndex
  rw [hmap, hnum]

theorem removeSegmentGo_spec {α : Type} [DecidableEq α] (x1 y1 x2 y2 : ℚ) :
    ∀ (cells : List (ℤ × ℤ)) (h : SpatialHash α) (val : Option (JSVal α)),
    StrideInv h.numElements h.map → NodupKeys h.map → cells.Nodup →
    ((∀ c ∈ cells, findIndex h c.1 c.2
        [JSVal.num x1, JSVal.num y1, JSVal.num x2, JSVal.num y2] ≠ -1) →
      (∃ v, (removeSegmentGo x1 y1 x2 y2 cells h val).1 =
        some [JSVal.num x1, JSVal.num y1, JSVal.num x2, JSVal.num y2, v]) ∧
      (∀ c ∈ cells,
        ((mapFind (removeSegmentGo x1 y1 x2 y2 cells h val).2.map
          (c.1, c.2)).getD []).length + h.numElements =
        ((mapFind h.map (c.1, c.2)).getD []).length)) ∧
    ((∃ c ∈ cells, findIndex h c.1 c.2
        [JSVal.num x1, JSVal.num y1, JSVal.num x2, JSVal.num y2] = -1) →
      (removeSegmentGo x1 y1 x2 y2 cells h val).1 = none) ∧
    (∀ k : ℤ × ℤ, k ∉ cells →
      mapFind (removeSegmentGo x1 y1 x2 y2 cells h val).2.map k = mapFind h.map k) := by
  intro cells
  induction cells with
  | nil =>
    intro h val _ _ _
    refine ⟨?_, ?_, ?_⟩
    · intro _
      exact ⟨⟨val.getD (JSVal.num 0), rfl⟩,
        fun c hc => absurd hc (List.not_mem_nil c)⟩
    · rintro ⟨c, hc, _⟩
      exact absurd hc (List.not_mem_nil c)
    · intro k _
      rfl
  | cons c rest ih =>
    intro h val hinv hnd hcells
    have hcnotin : c ∉ rest := (List.nodup_cons.mp hcells).1
    have hrest : rest.Nodup := (List.nodup_cons.mp hcells).2
    unfold removeSegmentGo
    dsimp only
    by_cases hne : findIndex h c.1 c.2
        [JSVal.num x1, JSVal.num y1, JSVal.num x2, JSVal.num y2] = -1
    · rw [if_pos hne]
      refine ⟨?_, ?_, ?_⟩
      · intro hall
        exact absurd hne (hall c (List.mem_cons_self c rest))
      · intro _
        rfl
      · intro k _
        rfl
    · rw [if_neg hne]
      have hbounds := findIndex_found_bounds h c.1 c.2
        [JSVal.num x1, JSVal.num y1, JSVal.num x2, JSVal.num y2]
        (fun e he => (hinv e he).2) hne
      have hs' : (removeAt h c.1 c.2 (findIndex h c.1 c.2
          [JSVal.num x1, JSVal.num y1, JSVal.num x2, JSVal.num y2])).2.numElements =
          h.numElements := removeAt_numElements h c.1 c.2 _
      have hinv' : StrideInv (removeAt h c.1 c.2 (findIndex h c.1 c.2
          [JSVal.num x1, JSVal.num y1, JSVal.num x2, JSVal.num y2])).2.numElements
          (removeAt h c.1 c.2 (findIndex h c.1 c.2
          [JSVal.num x1, JSVal.num y1, JSVal.num x2, JSVal.num y2])).2.map := by
        rw [hs']
        exact removeAt_strideInv h c.1 c.2 _ hinv hbounds
      have hnd' := removeAt_nodupKeys h c.1 c.2 (findIndex h c.1 c.2
        [JSVal.num x1, JSVal.num y1, JSVal.num x2, JSVal.num y2]) hnd
      have hih := ih (removeAt h c.1 c.2 (findIndex h c.1 c.2
        [JSVal.num x1, JSVal.num y1, JSVal.num x2, JSVal.num y2])).2
        ((removeAt h c.1 c.2 (findIndex h c.1 c.2
          [JSVal.num x1, JSVal.num y1, JSVal.num x2, JSVal.num y2])).1.get? 4)
        hinv' hnd' hrest
      have hfi : ∀ c' ∈ rest, findIndex (removeAt h c.1 c.2 (findIndex h c.1 c.2
          [JSVal.num x1, JSVal.num y1, JSVal.num x2, JSVal.num y2])).2 c'.1 c'.2
          [JSVal.num x1, JSVal.num y1, JSVal.num x2, JSVal.num y2] =
          findIndex h c'.1 c'.2
          [JSVal.num x1, JSVal.num y1, JSVal.num x2, JSVal.num y2] := by
        intro c' hc'
        have hcne : c' ≠ c := fun hcc => hcnotin (hcc ▸ hc')
        exact findIndex_congr h _ c'.1 c'.2 _
          (mapFind_removeAt_ne h c.1 c.2 _ (c'.1, c'.2) hcne) hs'
      refine ⟨?_, ?_, ?_⟩
      · intro hall
        have hall' : ∀ c' ∈ rest, findIndex (removeAt h c.1 c.2 (findIndex h c.1 c.2
            [JSVal.num x1, JSVal.num y1, JSVal.num x2, JSVal.num y2])).2 c'.1 c'.2
            [JSVal.num x1, JSVal.num y1, JSVal.num x2, JSVal.num y2] ≠ -1 := by
          intro c' hc'
          rw [hfi c' hc']
          exact hall c' (List.mem_cons_of_mem _ hc')
        refine ⟨(hih.1 hall').1, ?_⟩
        intro c' hc'
        rcases List.mem_cons.mp hc' with rfl | hc'r
        · rw [hih.2.2 (c'.1, c'.2) (by simpa using hcnotin)]
          exact removeAt_findIndex_length h c'.1 c'.2
            [JSVal.num x1, JSVal.num y1, JSVal.num x2, JSVal.num y2]
            (fun e he => (hinv e he).2) hnd hne
        · have hceq := (hih.1 hall').2 c' hc'r
          rw [hs'] at hceq
          rw [hceq]
          have hcne : c' ≠ c := fun hcc => hcnotin (hcc ▸ hc'r)
          rw [mapFind_removeAt_ne h c.1 c.2 _ (c'.1, c'.2) hcne]
      · rintro ⟨c', hc', hfail⟩
        rcases List.mem_cons.mp hc' with rfl | hc'r
        · exact absurd hfail hne
        · exact hih.2.1 ⟨c', hc'r, by rw [hfi c' hc'r]; exact hfail⟩
      · intro k hk
        have hknotrest : k ∉ rest := fun hm => hk (List.mem_cons_of_mem _ hm)
        have hkne : k ≠ c := fun hkc => hk (hkc ▸ List.mem_cons_self _ _)
        rw [hih.2.2 k hknotrest]
        exact mapFind_removeAt_ne h c.1 c.2 _ k hkne

/-- C9: removeSegment visits every cell of cellsUnderSegment at the default
eps = cellSize / 2.  If every such cell holds a record with exactly the four
query coordinates, one matching record is removed from each visited cell
(each visited cell's list shrinks by one stride-5 record, all other cells
are untouched) and the call returns the removed record
[x1, y1, x2, y2, value]; if any visited cell lacks a match, the call
returns the absent result. -/
theorem C9_removeSegment {α : Type} [DecidableEq α] (h : SpatialHash α)
    (x1 y1 x2 y2 : ℚ) (hs : h.numElements = 5) (hinv : StrideInv 5 h.map)
    (hnd : NodupKeys h.map) :
    ((∀ c ∈ cellsUnderSegment h x1 y1 x2 y2 (h.cellSize / 2),
        ∃ j ∈ List.range (((mapFind h.map c).getD []).length),
          j * 5 < ((mapFind h.map c).getD []).length ∧
          matchesAt (((mapFind h.map c).getD []).drop (j * 5))
            [JSVal.num x1, JSVal.num y1, JSVal.num x2, JSVal.num y2] = true) →
      (∃ v, (removeSegment h x1 y1 x2 y2).1 =
        some [JSVal.num x1, JSVal.num y1, JSVal.num x2, JSVal.num y2, v]) ∧
      (∀ c ∈ cellsUnderSegment h x1 y1 x2 y2 (h.cellSize / 2),
        ((mapFind (removeSegment h x1 y1 x2 y2).2.map c).getD []).length + 5 =
        ((mapFind h.map c).getD []).length)) ∧
    ((∃ c ∈ cellsUnderSegment h x1 y1 x2 y2 (h.cellSize / 2),
        ∀ j ∈ List.range (((mapFind h.map c).getD []).length),
          ¬(j * 5 < ((mapFind h.map c).getD []).length ∧
            matchesAt (((mapFind h.map c).getD []).drop (j * 5))
              [JSVal.num x1, JSVal.num y1, JSVal.num x2, JSVal.num y2] = true)) →
      (removeSegment h x1 y1 x2 y2).1 = none) ∧
    (∀ k : ℤ × ℤ, k ∉ cellsUnderSegment h x1 y1 x2 y2 (h.cellSize / 2) →
      mapFind (removeSegment h x1 y1 x2 y2).2.map k = mapFind h.map k) := by
  have hinv' : StrideInv h.numElements h.map := by rw [hs]; exact hinv
  have hnodup : (cellsUnderSegment h x1 y1 x2 y2 (h.cellSize / 2)).Nodup :=
    (goodState_cellsUnderSegmentAux h x1 y1 x2 y2 (h.cellSize / 2)).1
  have hspec := removeSegmentGo_spec x1 y1 x2 y2
    (cellsUnderSegment h x1 y1 x2 y2 (h.cellSize / 2)) h none hinv' hnd hnodup
  have hiffc : ∀ c : ℤ × ℤ, (findIndex h c.1 c.2
      [JSVal.num x1, JSVal.num y1, JSVal.num x2, JSVal.num y2] ≠ -1 ↔
      ∃ j ∈ List.range (((mapFind h.map c).getD []).length),
        j * 5 < ((mapFind h.map c).getD []).length ∧
        matchesAt (((mapFind h.map c).getD []).drop (j * 5))
          [JSVal.num x1, JSVal.num y1, JSVal.num x2, JSVal.num y2] = true) := by
    intro c
    have := findIndex_ne_neg_one_iff h c.1 c.2
      [JSVal.num x1, JSVal.num y1, JSVal.num x2, JSVal.num y2] (by omega)
    rw [hs] at this
    exact this
  refine ⟨?_, ?_, ?_⟩
  · intro hall
    have hall' : ∀ c ∈ cellsUnderSegment h x1 y1 x2 y2 (h.cellSize / 2),
        findIndex h c.1 c.2
          [JSVal.num x1, JSVal.num y1, JSVal.num x2, JSVal.num y2] ≠ -1 :=
      fun c hc => (hiffc c).mpr (hall c hc)
    refine ⟨(hspec.1 hall').1, ?_⟩
    intro c hc
    have := (hspec.1 hall').2 c hc
    rw [hs] at this
    exact this
  · rintro ⟨c, hc, hfail⟩
    apply hspec.2.1
    refine ⟨c, hc, ?_⟩
    by_contra hne
    obtain ⟨j, hjr, hj⟩ := (hiffc c).mp hne
    exact hfail j hjr hj
  · exact hspec.2.2

/-- C9 witness: removing a stored segment succeeds and returns the record;
removing from an empty index reports not found. -/
theorem C9_removeSegment_witness :
    (∃ v, (removeSegment (addSegment segHash10 7 7 9 28 1) 7 7 9 28).1 =
      some [JSVal.num 7, JSVal.num 7, JSVal.num 9, JSVal.num 28, v]) ∧
    (removeSegment segHash10 1 1 2 2).1 = none := by
  constructor
  · exact ((C9_removeSegment (addSegment segHash10 7 7 9 28 1) 7 7 9 28
      (of_decide_eq_true (by with_unfolding_all rfl))
      (of_decide_eq_true (by with_unfolding_all rfl))
      (of_decide_eq_true (by with_unfolding_all rfl))).1
      (of_decide_eq_true (by with_unfolding_all rfl))).1
  · exact (C9_removeSegment segHash10 1 1 2 2 rfl
      (of_decide_eq_true (by with_unfolding_all rfl))
      (of_decide_eq_true (by with_unfolding_all rfl))).2.1
      (of_decide_eq_true (by with_unfolding_all rfl))

/-!
Lemmas for the nearbyPoints range-query theorem.
-/

theorem jsTrunc_mono {a b : ℚ} (hab : a ≤ b) : jsTrunc a ≤ jsTrunc b := by
  unfold jsTrunc
  by_cases ha : a < 0 <;> by_cases hb : b < 0
  · rw [if_pos ha, if_pos hb]
    have hfl : ⌊-b⌋ ≤ ⌊-a⌋ := Int.floor_le_floor (by linarith)
    omega
  · rw [if_pos ha, if_neg hb]
    have h1 : (0 : ℤ) ≤ ⌊-a⌋ := Int.floor_nonneg.mpr (by linarith)
    have h2 : (0 : ℤ) ≤ ⌊b⌋ := Int.floor_nonneg.mpr (by linarith)
    omega
  · exact absurd (lt_of_le_of_lt hab hb) ha
  · rw [if_neg ha, if_neg hb]
    exact Int.floor_le_floor hab

theorem mem_cellsUnderExtent {α : Type} (h : SpatialHash α) (x y width height : ℚ)
    (k : ℤ × ℤ) :
    k ∈ cellsUnderExtent h x y width height ↔
      (jsTrunc (x / h.cellSize) ≤ k.1 ∧
        k.1 < jsTrunc ((x + width) / h.cellSize) + 1 ∧
        jsTrunc (y / h.cellSize) ≤ k.2 ∧
        k.2 < jsTrunc ((y + height) / h.cellSize) + 1) := by
  unfold cellsUnderExtent
  rw [List.mem_bind]
  constructor
  · rintro ⟨j, hj, hin⟩
    rw [List.mem_range] at hj
    rw [List.mem_map] at hin
    obtain ⟨i, hi, hk⟩ := hin
    rw [List.mem_range] at hi
    rw [← hk]
    dsimp only
    omega
  · rintro ⟨h1, h2, h3, h4⟩
    refine ⟨(k.2 - jsTrunc (y / h.cellSize)).toNat, ?_, ?_⟩
    · rw [List.mem_range]
      omega
    · rw [List.mem_map]
      refine ⟨(k.1 - jsTrunc (x / h.cellSize)).toNat, ?_, ?_⟩
      · rw [List.mem_range]
        omega
      · have hx : jsTrunc (x / h.cellSize) +
            (((k.1 - jsTrunc (x / h.cellSize)).toNat : ℕ) : ℤ) = k.1 := by omega
        have hy : jsTrunc (y / h.cellSize) +
            (((k.2 - jsTrunc (y / h.cellSize)).toNat : ℕ) : ℤ) = k.2 := by omega
        rw [hx, hy]

theorem mapFind_eq_of_mem_nodup {α : Type} {m : List ((ℤ × ℤ) × List (JSVal α))}
    (hnd : NodupKeys m) {e : (ℤ × ℤ) × List (JSVal α)} (he : e ∈ m) :
    mapFind m e.1 = some e.2 := by
  induction m with
  | nil => exact absurd he (List.not_mem_nil e)
  | cons f rest ih =>
    have hcons := List.nodup_cons.mp hnd
    rcases List.mem_cons.mp he with rfl | hr
    · unfold mapFind
      rw [if_pos rfl]
    · unfold mapFind
      rw [if_neg ?_]
      · exact ih hcons.2 hr
      · intro hf
        exact hcons.1 (hf ▸ List.mem_map.mpr ⟨e, hr, rfl⟩)


theorem bind_cons_eq {γ δ : Type} (x : γ) (xs : List γ) (f : γ → List δ) :
    (x :: xs).bind f = f x ++ xs.bind f := rfl

theorem bind_append_eq {γ δ : Type} (l1 l2 : List γ) (f : γ → List δ) :
    (l1 ++ l2).bind f = l1.bind f ++ l2.bind f := List.append_bind l1 l2 f

theorem scan_bind_perm {α : Type} {β : Type} (g : (ℤ × ℤ) × List (JSVal α) → List β) :
    ∀ (m : List ((ℤ × ℤ) × List (JSVal α))) (keys : List (ℤ × ℤ)),
    keys.Nodup → NodupKeys m →
    (∀ e ∈ m, e.1 ∉ keys → g e = []) →
    ((keys.bind (fun k => match mapFind m k with
      | none => []
      | some arr => g (k, arr))) : Multiset β) =
    ((m.bind g : List β) : Multiset β) := by
  intro m
  induction m with
  | nil =>
    intro keys _ _ _
    have hnil : keys.bind (fun k => match mapFind ([] :
        List ((ℤ × ℤ) × List (JSVal α))) k with
      | none => ([] : List β)
      | some arr => g (k, arr)) = [] :=
      List.bind_eq_nil.mpr (fun k _ => rfl)
    rw [hnil]
    rfl
  | cons e rest ih =>
    intro keys hknd hmnd hout
    have hmcons : (e.1 ∉ mapKeys rest) ∧ NodupKeys rest := by
      have hthis : (e.1 :: mapKeys rest).Nodup := hmnd
      exact List.nodup_cons.mp hthis
    have hrestne : ∀ e' ∈ rest, e'.1 ≠ e.1 := by
      intro e' he' hc
      exact hmcons.1 (hc ▸ List.mem_map.mpr ⟨e', he', rfl⟩)
    have hfind_ne : ∀ k : ℤ × ℤ, k ≠ e.1 →
        mapFind (e :: rest) k = mapFind rest k := by
      intro k hk
      show (if e.1 = k then some e.2 else mapFind rest k) = mapFind rest k
      rw [if_neg (fun hc => hk hc.symm)]
    have hbind1 : ∀ (l : List (ℤ × ℤ)), e.1 ∉ l →
        l.bind (fun k => match mapFind (e :: rest) k with
          | none => ([] : List β)
          | some arr => g (k, arr)) =
        l.bind (fun k => match mapFind rest k with
          | none => ([] : List β)
          | some arr => g (k, arr)) := by
      intro l hel
      apply List.bind_congr
      intro k hk
      rw [hfind_ne k (fun hc => hel (hc ▸ hk))]
    by_cases hek : e.1 ∈ keys
    · obtain ⟨l1, l2, rfl⟩ := List.append_of_mem hek
      obtain ⟨hl1, hl2c, hdisj⟩ := List.nodup_append.mp hknd
      have he1l1 : e.1 ∉ l1 := fun hm => hdisj hm (List.mem_cons_self _ _)
      have he1l2 : e.1 ∉ l2 := (List.nodup_cons.mp hl2c).1
      have hl12 : (l1 ++ l2).Nodup := List.nodup_append.mpr
        ⟨hl1, (List.nodup_cons.mp hl2c).2,
          fun a ha1 ha2 => hdisj ha1 (List.mem_cons_of_mem _ ha2)⟩
      have he1l12 : e.1 ∉ l1 ++ l2 := by
        intro hm
        rcases List.mem_append.mp hm with h1 | h2
        · exact he1l1 h1
        · exact he1l2 h2
      have hfe : (match mapFind (e :: rest) e.1 with
          | none => ([] : List β)
          | some arr => g (e.1, arr)) = g e := by
        show (match (if e.1 = e.1 then some e.2 else mapFind rest e.1) with
          | none => ([] : List β)
          | some arr => g (e.1, arr)) = g e
        rw [if_pos rfl]
      have hout' : ∀ e' ∈ rest, e'.1 ∉ l1 ++ l2 → g e' = [] := by
        intro e' he' hnm
        apply hout e' (List.mem_cons_of_mem _ he')
        intro hm
        rcases List.mem_append.mp hm with h1 | h2
        · exact hnm (List.mem_append.mpr (Or.inl h1))
        · rcases List.mem_cons.mp h2 with hc | h2'
          · exact hrestne e' he' hc
          · exact hnm (List.mem_append.mpr (Or.inr h2'))
      have hih := ih (l1 ++ l2) hl12 hmcons.2 hout'
      have hperm : (l1.bind (fun k => match mapFind (e :: rest) k with
            | none => ([] : List β)
            | some arr => g (k, arr))) ++
          ((match mapFind (e :: rest) e.1 with
            | none => ([] : List β)
            | some arr => g (e.1, arr)) ++
           (l2.bind (fun k => match mapFind (e :: rest) k with
            | none => ([] : List β)
            | some arr => g (k, arr)))) |>.Perm
          ((match mapFind (e :: rest) e.1 with
            | none => ([] : List β)
            | some arr => g (e.1, arr)) ++
           ((l1 ++ l2).bind (fun k => match mapFind (e :: rest) k with
            | none => ([] : List β)
            | some arr => g (k, arr)))) := by
        rw [bind_append_eq]
        rw [← List.append_assoc, ← List.append_assoc]
        exact List.perm_append_comm.append_right _
      calc (((l1 ++ e.1 :: l2).bind (fun k => match mapFind (e :: rest) k with
            | none => ([] : List β)
            | some arr => g (k, arr))) : Multiset β)
          = ↑((l1.bind (fun k => match mapFind (e :: rest) k with
              | none => ([] : List β)
              | some arr => g (k, arr))) ++
            ((match mapFind (e :: rest) e.1 with
              | none => ([] : List β)
              | some arr => g (e.1, arr)) ++
             (l2.bind (fun k => match mapFind (e :: rest) k with
              | none => ([] : List β)
              | some arr => g (k, arr))))) := by
            rw [bind_append_eq, bind_cons_eq]
        _ = ↑((match mapFind (e :: rest) e.1 with
              | none => ([] : List β)
              | some arr => g (e.1, arr)) ++
            ((l1 ++ l2).bind (fun k => match mapFind (e :: rest) k with
              | none => ([] : List β)
              | some arr => g (k, arr)))) := Multiset.coe_eq_coe.mpr hperm
        _ = ↑(g e ++ ((l1 ++ l2).bind (fun k => match mapFind rest k with
              | none => ([] : List β)
              | some arr => g (k, arr)))) := by
            rw [hfe, hbind1 (l1 ++ l2) he1l12]
        _ = (↑(g e) : Multiset β) + ↑((l1 ++ l2).bind (fun k =>
              match mapFind rest k with
              | none => ([] : List β)
              | some arr => g (k, arr))) := by
            exact_mod_cast rfl
        _ = (↑(g e) : Multiset β) + ↑(rest.bind g) := by rw [hih]
        _ = ↑(g e ++ rest.bind g) := by exact_mod_cast rfl
        _ = ↑((e :: rest).bind g) := by rw [bind_cons_eq]
    · have hge : g e = [] := hout e (List.mem_cons_self _ _) hek
      rw [hbind1 keys hek, bind_cons_eq, hge, List.nil_append]
      exact ih keys hknd hmcons.2
        (fun e' he' hnm => hout e' (List.mem_cons_of_mem _ he') hnm)

theorem cellsUnderExtent_nodup {α : Type} (h : SpatialHash α)
    (x y width height : ℚ) : (cellsUnderExtent h x y width height).Nodup := by
  unfold cellsUnderExtent
  rw [List.nodup_bind]
  constructor
  · intro j _
    refine (List.nodup_range _).map ?_
    intro a b hab
    have h1 := congrArg Prod.fst hab
    simp only at h1
    omega
  · have hpw : (List.range (jsTrunc ((y + height) / h.cellSize) + 1 -
        jsTrunc (y / h.cellSize)).toNat).Pairwise (fun a b => a < b) :=
      List.pairwise_lt_range _
    refine hpw.imp ?_
    intro a b hab
    refine List.disjoint_left.mpr ?_
    intro z hza hzb
    rw [List.mem_map] at hza hzb
    obtain ⟨i1, _, h1⟩ := hza
    obtain ⟨i2, _, h2⟩ := hzb
    have e1 := congrArg Prod.snd h1
    have e2 := congrArg Prod.snd h2
    simp only at e1 e2
    omega

theorem cell_mem_extent_of_close {α : Type} (h : SpatialHash α)
    (cx cy r px py : ℚ) (hsz : 0 < h.cellSize) (hr : 0 ≤ r)
    (hd2 : sqdist cx cy px py ≤ r * r) :
    (jsTrunc (px / h.cellSize), jsTrunc (py / h.cellSize)) ∈
      cellsUnderExtent h (cx - r) (cy - r) (r + r) (r + r) := by
  have hd2' : (cx - px) * (cx - px) + (cy - py) * (cy - py) ≤ r * r := hd2
  have hx1 : cx - r ≤ px := by nlinarith [mul_self_nonneg (cy - py)]
  have hx2 : px ≤ cx + r := by nlinarith [mul_self_nonneg (cy - py)]
  have hy1 : cy - r ≤ py := by nlinarith [mul_self_nonneg (cx - px)]
  have hy2 : py ≤ cy + r := by nlinarith [mul_self_nonneg (cx - px)]
  have hex : cx - r + (r + r) = cx + r := by ring
  have hey : cy - r + (r + r) = cy + r := by ring
  rw [mem_cellsUnderExtent]
  refine ⟨?_, ?_, ?_, ?_⟩
  · exact jsTrunc_mono ((div_le_div_iff_of_pos_right hsz).mpr hx1)
  · rw [hex]
    have := jsTrunc_mono ((div_le_div_iff_of_pos_right hsz).mpr hx2)
    omega
  · exact jsTrunc_mono ((div_le_div_iff_of_pos_right hsz).mpr hy1)
  · rw [hey]
    have := jsTrunc_mono ((div_le_div_iff_of_pos_right hsz).mpr hy2)
    omega

/-- C2: the range query nearbyPoints is exhaustive and exact — it yields,
as a multiset, exactly the stored records whose squared distance to the
centre is at most r squared — provided the radius is nonnegative; the map
has no duplicate keys and every record sits in the cell of its truncated
coordinates (both invariants maintained by addPoint).  The spec's original
claim over every radius is refuted separately: for a negative radius the
Euclidean condition is empty yet nearbyPoints can still yield records. -/
theorem C2_nearbyPoints_exact {α : Type} (h : SpatialHash α) (cx cy r : ℚ)
    (hsz : 0 < h.cellSize) (hr : 0 ≤ r) (hnd : NodupKeys h.map)
    (hplaced : ∀ e ∈ h.map, ∀ ch ∈ chunks 3 e.2,
      jsTrunc (qAt ch 0 / h.cellSize) = e.1.1 ∧
      jsTrunc (qAt ch 1 / h.cellSize) = e.1.2) :
    ((nearbyPoints h cx cy r : List (ℚ × ℚ × JSVal α × ℚ)) :
      Multiset (ℚ × ℚ × JSVal α × ℚ)) =
    ((nearbyBruteForce h cx cy r : List (ℚ × ℚ × JSVal α × ℚ)) :
      Multiset (ℚ × ℚ × JSVal α × ℚ)) := by
  have hout : ∀ e ∈ h.map,
      e.1 ∉ cellsUnderExtent h (cx - r) (cy - r) (r + r) (r + r) →
      ((chunks 3 e.2).filterMap fun ch =>
        let px := qAt ch 0
        let py := qAt ch 1
        let pv := vAt ch 2
        let d2 := sqdist cx cy px py
        if d2 ≤ r * r then some (px, py, pv, d2) else none) = [] := by
    intro e he hnm
    refine List.filterMap_eq_nil_iff.mpr ?_
    intro ch hch
    have hcell := hplaced e he ch hch
    show (if sqdist cx cy (qAt ch 0) (qAt ch 1) ≤ r * r
      then some (qAt ch 0, qAt ch 1, vAt ch 2, sqdist cx cy (qAt ch 0) (qAt ch 1))
      else none) = none
    rw [if_neg]
    intro hle
    apply hnm
    have hmem := cell_mem_extent_of_close h cx cy r (qAt ch 0) (qAt ch 1) hsz hr hle
    rw [hcell.1, hcell.2] at hmem
    exact hmem
  have hmain := scan_bind_perm
    (fun e => (chunks 3 e.2).filterMap fun ch =>
      let px := qAt ch 0
      let py := qAt ch 1
      let pv := vAt ch 2
      let d2 := sqdist cx cy px py
      if d2 ≤ r * r then some (px, py, pv, d2) else none)
    h.map (cellsUnderExtent h (cx - r) (cy - r) (r + r) (r + r))
    (cellsUnderExtent_nodup h (cx - r) (cy - r) (r + r) (r + r)) hnd hout
  exact hmain

/-- C2 counterexample to the spec's unconditional claim: with radius -1 the
set of stored points within Euclidean distance -1 of (5, 5) is empty — the
stored point (5, 5) is at distance 0 and 0 is not at most -1 — yet
nearbyPoints still yields that record, because the code only compares the
squared distance against r * r. -/
theorem C2_counterexample :
    nearbyPoints (addPoint ptHash10 5 5 0) 5 5 (-1) =
      [(5, 5, JSVal.val 0, 0)] ∧
    sqdist 5 5 5 5 = 0 ∧ ¬ ((0 : ℚ) ≤ -1) :=
  ⟨of_decide_eq_true (by with_unfolding_all rfl),
   of_decide_eq_true (by with_unfolding_all rfl), by norm_num⟩

/-- Witness instantiating C2_nearbyPoints_exact on a concrete one-point
hash with radius 4. -/
theorem C2_nearbyPoints_exact_witness :
    ((0 : ℚ) < (addPoint ptHash10 5 5 0).cellSize ∧ (0 : ℚ) ≤ 4 ∧
      NodupKeys (addPoint ptHash10 5 5 0).map ∧
      (∀ e ∈ (addPoint ptHash10 5 5 0).map, ∀ ch ∈ chunks 3 e.2,
        jsTrunc (qAt ch 0 / (addPoint ptHash10 5 5 0).cellSize) = e.1.1 ∧
        jsTrunc (qAt ch 1 / (addPoint ptHash10 5 5 0).cellSize) = e.1.2)) ∧
    ((nearbyPoints (addPoint ptHash10 5 5 0) 5 5 4 :
        List (ℚ × ℚ × JSVal ℕ × ℚ)) : Multiset (ℚ × ℚ × JSVal ℕ × ℚ)) =
    ((nearbyBruteForce (addPoint ptHash10 5 5 0) 5 5 4 :
        List (ℚ × ℚ × JSVal ℕ × ℚ)) : Multiset (ℚ × ℚ × JSVal ℕ × ℚ)) := by
  have h1 : (0 : ℚ) < (addPoint ptHash10 5 5 0).cellSize :=
    of_decide_eq_true (by with_unfolding_all rfl)
  have h2 : (0 : ℚ) ≤ 4 := by norm_num
  have h3 : NodupKeys (addPoint ptHash10 5 5 0).map :=
    of_decide_eq_true (by with_unfolding_all rfl)
  have h4 : ∀ e ∈ (addPoint ptHash10 5 5 0).map, ∀ ch ∈ chunks 3 e.2,
      jsTrunc (qAt ch 0 / (addPoint ptHash10 5 5 0).cellSize) = e.1.1 ∧
      jsTrunc (qAt ch 1 / (addPoint ptHash10 5 5 0).cellSize) = e.1.2 :=
    of_decide_eq_true (by with_unfolding_all rfl)
  exact ⟨⟨h1, h2, h3, h4⟩,
    C2_nearbyPoints_exact (addPoint ptHash10 5 5 0) 5 5 4 h1 h2 h3 h4⟩
